import Mathlib

/-!
Shallow embedding of the `spatial` crate (quadtree / octree spatial index)
and verification of its specification claims.

The scalar type of the source (`SpatialKey`, instantiated at `f32`/`f64`)
is embedded as an arbitrary `LinearOrderedField`; rationals are used for
concrete evaluation and the reals (with `Real.sqrt` / `Real.rpow`) for the
radius-query claims, which involve square roots.

The crate module `quadtree::volume` / `octree::volume` (file `volume.rs`)
is not present in the source tree; its `Volume` type is modelled from the
spec (§3, §4.1).  Everything else is translated directly from
`src/quadtree/mod.rs`, `src/octree/mod.rs` and `src/lib.rs`.
-/

set_option maxRecDepth 10000
set_option linter.unusedSectionVars false

namespace spatial

/-- The default capacity of a node until it's subdivided (`DEFAULT_CAPACITY`). -/
def DEFAULT_CAPACITY : ℕ := 8

/-- Modelled from the spec: the scalar capability's cast-from-small-integer
(`NumCast::from` of the external `num` crate, §2/§6 of the spec: the cast is
part of the required scalar capability bundle, supplied externally).  For the
field-embedded scalar the cast of a small natural number is its numeral
image and always succeeds. -/
def numCastFrom (T : Type) [LinearOrderedField T] (n : ℕ) : Option T :=
  some (n : T)

/-- The value `NumCast::from(2).unwrap()` used by `subdivide` and
`get_in_radius`: the unwrap of the modelled cast, which provably never hits
its panic branch. -/
def val2 (T : Type) [LinearOrderedField T] : T :=
  (numCastFrom T 2).get rfl

namespace quadtree

variable {T : Type} [LinearOrderedField T]

/-- Modelled from the spec: `quadtree::volume::Volume` (file `volume.rs`
missing from the source tree); an axis-aligned bounding box in 2D with
corners `min` and `max` (§3). -/
structure Volume (T : Type) where
  min : T × T
  max : T × T
  deriving DecidableEq

/-- Modelled from the spec: `Volume::new(min, max)`. -/
def Volume.new (mn mx : T × T) : Volume T :=
  ⟨mn, mx⟩

/-- Modelled from the spec (§4.1): `contains(point)` is true iff
`min[i] <= point[i] <= max[i]` for every axis (inclusive both ends). -/
def Volume.contains (v : Volume T) (p : T × T) : Bool :=
  decide (v.min.1 ≤ p.1 ∧ p.1 ≤ v.max.1 ∧ v.min.2 ≤ p.2 ∧ p.2 ≤ v.max.2)

/-- Modelled from the spec (§4.1): `intersects(other)` is true iff the two
boxes overlap on every axis: for each axis,
`not (other.max[i] < min[i] or other.min[i] > max[i])`. -/
def Volume.intersects (v w : Volume T) : Bool :=
  decide (¬(w.max.1 < v.min.1 ∨ w.min.1 > v.max.1) ∧
          ¬(w.max.2 < v.min.2 ∨ w.min.2 > v.max.2))

/-- `Quadtree<T, P>`: `capacity`, `items`, `volume`, and
`quadrants: Option<[Box<Quadtree>; 4]>`, encoded as two constructors:
`leaf` for `quadrants = None` and `internal` for `quadrants = Some` with
the four quadrants in source order (NW, NE, SW, SE). -/
inductive Quadtree (T : Type) (P : Type) : Type where
  | leaf (capacity : ℕ) (items : List P) (volume : Volume T)
  | internal (capacity : ℕ) (items : List P) (volume : Volume T)
      (q0 q1 q2 q3 : Quadtree T P)

variable {P : Type}

/-- The `capacity` field. -/
def Quadtree.capacity : Quadtree T P → ℕ
  | .leaf c _ _ => c
  | .internal c _ _ _ _ _ _ => c

/-- The `items` field. -/
def Quadtree.items : Quadtree T P → List P
  | .leaf _ is _ => is
  | .internal _ is _ _ _ _ _ => is

/-- The `volume` field. -/
def Quadtree.volume : Quadtree T P → Volume T
  | .leaf _ _ v => v
  | .internal _ _ v _ _ _ _ => v

/-- `Quadtree::with_capacity(vol, capacity)`: an empty leaf. -/
def Quadtree.with_capacity (vol : Volume T) (capacity : ℕ) : Quadtree T P :=
  .leaf capacity [] vol

/-- `Quadtree::new(vol)`: empty leaf with `DEFAULT_CAPACITY`. -/
def Quadtree.new (vol : Volume T) : Quadtree T P :=
  Quadtree.with_capacity vol DEFAULT_CAPACITY

/-- `Quadtree::len()`: own item count plus recursive sum over quadrants. -/
def Quadtree.len : Quadtree T P → ℕ
  | .leaf _ is _ => is.length
  | .internal _ is _ q0 q1 q2 q3 =>
      is.length + q0.len + q1.len + q2.len + q3.len

/-- `Quadtree::subdivide()`: sets `quadrants` to the four children built
from `hw = max[0] / 2`, `hh = max[1] / 2` exactly as in the source
(lines 157–171 of `quadtree/mod.rs`); `items` are kept at this node. -/
def Quadtree.subdivide (cap : ℕ) (is : List P) (vol : Volume T) :
    Quadtree T P :=
  let mn := vol.min
  let mx := vol.max
  let hw := mx.1 / val2 T
  let hh := mx.2 / val2 T
  .internal cap is vol
    (.leaf cap [] (Volume.new (mn.1, mn.2) (hw, hh)))
    (.leaf cap [] (Volume.new (mn.1 + hh, mn.2) (mx.1, hh)))
    (.leaf cap [] (Volume.new (mn.1, mn.2 + hh) (hw, mx.2)))
    (.leaf cap [] (Volume.new (mn.1 + hw, mn.2 + hh) (mx.1, mx.2)))

variable (idx : P → T × T)

/-- `Quadtree::insert(item)`: returns the updated tree together with the
boolean result.  Mirrors the source: reject if the coordinate is not
contained; push if there is room; otherwise either try the quadrants in
order (keeping any mutation a failed child insert performed) or, for a
leaf, subdivide and return `false` (the source does not re-insert the
triggering item). -/
def Quadtree.insert : Quadtree T P → P → Quadtree T P × Bool
  | .leaf cap is vol, item =>
      if vol.contains (idx item) then
        if is.length < cap then (.leaf cap (is ++ [item]) vol, true)
        else (Quadtree.subdivide cap is vol, false)
      else (.leaf cap is vol, false)
  | .internal cap is vol q0 q1 q2 q3, item =>
      if vol.contains (idx item) then
        if is.length < cap then (.internal cap (is ++ [item]) vol q0 q1 q2 q3, true)
        else
          let r0 := Quadtree.insert q0 item
          if r0.2 then (.internal cap is vol r0.1 q1 q2 q3, true)
          else
            let r1 := Quadtree.insert q1 item
            if r1.2 then (.internal cap is vol r0.1 r1.1 q2 q3, true)
            else
              let r2 := Quadtree.insert q2 item
              if r2.2 then (.internal cap is vol r0.1 r1.1 r2.1 q3, true)
              else
                let r3 := Quadtree.insert q3 item
                (.internal cap is vol r0.1 r1.1 r2.1 r3.1, r3.2)
      else (.internal cap is vol q0 q1 q2 q3, false)

/-- `Quadtree::get_in_volume(vol)`: empty if this node's volume does not
intersect `vol`; otherwise this node's items whose coordinate `vol`
contains, followed by the quadrants' results in construction order. -/
def Quadtree.get_in_volume : Quadtree T P → Volume T → List P
  | .leaf _ is tvol, vol =>
      if tvol.intersects vol then
        is.filter (fun i => vol.contains (idx i))
      else []
  | .internal _ is tvol q0 q1 q2 q3, vol =>
      if tvol.intersects vol then
        is.filter (fun i => vol.contains (idx i))
          ++ q0.get_in_volume vol ++ q1.get_in_volume vol
          ++ q2.get_in_volume vol ++ q3.get_in_volume vol
      else []

/-- `Quadtree::get_in_radius(center, radius)` with the scalar capability's
`sqrt` and `powf` passed explicitly (they come from the external `num`
`Float` trait): box query on `[center - radius, center + radius]`, then
filter by `sqrt((i0-c0).powf(2) + (i1-c1).powf(2)) <= radius`
(inclusive comparison, source line 146). -/
def Quadtree.get_in_radius (sqrtF : T → T) (powfF : T → T → T)
    (t : Quadtree T P) (center : T × T) (radius : T) : List P :=
  let mn := (center.1 - radius, center.2 - radius)
  let mx := (center.1 + radius, center.2 + radius)
  let volume := Volume.new mn mx
  let in_box := t.get_in_volume idx volume
  in_box.filter (fun item =>
    let i := idx item
    let d0 := powfF (i.1 - center.1) (val2 T)
    let d1 := powfF (i.2 - center.2) (val2 T)
    sqrtF (d0 + d1) ≤ radius)

/-- Analysis helper: drive a list of items through `insert`, returning the
final tree and the sub-list of accepted items (those whose insert returned
`true`), in order. -/
def Quadtree.insert_all : Quadtree T P → List P → Quadtree T P × List P
  | t, [] => (t, [])
  | t, i :: rest =>
      let r := Quadtree.insert idx t i
      let s := Quadtree.insert_all r.1 rest
      (s.1, if r.2 then i :: s.2 else s.2)

/-- Analysis helper: the list of quadrants, `[]` for a leaf. -/
def Quadtree.children : Quadtree T P → List (Quadtree T P)
  | .leaf _ _ _ => []
  | .internal _ _ _ q0 q1 q2 q3 => [q0, q1, q2, q3]

/-- Analysis helper: every item stored anywhere in the tree, this node's
items first, then the quadrants' in construction order. -/
def Quadtree.allItems : Quadtree T P → List P
  | .leaf _ is _ => is
  | .internal _ is _ q0 q1 q2 q3 =>
      is ++ q0.allItems ++ q1.allItems ++ q2.allItems ++ q3.allItems

end quadtree

namespace octree

variable {T : Type} [LinearOrderedField T]

/-- Modelled from the spec: `octree::volume::Volume` (file `volume.rs`
missing from the source tree); an axis-aligned bounding box in 3D with
corners `min` and `max` (§3). -/
structure Volume (T : Type) where
  min : T × T × T
  max : T × T × T
  deriving DecidableEq

/-- Modelled from the spec: `Volume::new(min, max)`. -/
def Volume.new (mn mx : T × T × T) : Volume T :=
  ⟨mn, mx⟩

/-- Modelled from the spec (§4.1): inclusive per-axis containment. -/
def Volume.contains (v : Volume T) (p : T × T × T) : Bool :=
  decide (v.min.1 ≤ p.1 ∧ p.1 ≤ v.max.1 ∧
          v.min.2.1 ≤ p.2.1 ∧ p.2.1 ≤ v.max.2.1 ∧
          v.min.2.2 ≤ p.2.2 ∧ p.2.2 ≤ v.max.2.2)

/-- Modelled from the spec (§4.1): per-axis overlap test. -/
def Volume.intersects (v w : Volume T) : Bool :=
  decide (¬(w.max.1 < v.min.1 ∨ w.min.1 > v.max.1) ∧
          ¬(w.max.2.1 < v.min.2.1 ∨ w.min.2.1 > v.max.2.1) ∧
          ¬(w.max.2.2 < v.min.2.2 ∨ w.min.2.2 > v.max.2.2))

/-- `Octree<T, I>`: `capacity`, `items`, `volume`, and
`octants: Option<[Box<Octree>; 8]>`, encoded as `leaf` (`None`) and
`internal` (`Some`) with the eight octants in source order. -/
inductive Octree (T : Type) (P : Type) : Type where
  | leaf (capacity : ℕ) (items : List P) (volume : Volume T)
  | internal (capacity : ℕ) (items : List P) (volume : Volume T)
      (o0 o1 o2 o3 o4 o5 o6 o7 : Octree T P)

variable {P : Type}

/-- The `capacity` field. -/
def Octree.capacity : Octree T P → ℕ
  | .leaf c _ _ => c
  | .internal c _ _ _ _ _ _ _ _ _ _ => c

/-- The `items` field. -/
def Octree.items : Octree T P → List P
  | .leaf _ is _ => is
  | .internal _ is _ _ _ _ _ _ _ _ _ => is

/-- The `volume` field. -/
def Octree.volume : Octree T P → Volume T
  | .leaf _ _ v => v
  | .internal _ _ v _ _ _ _ _ _ _ _ => v

/-- `Octree::with_capacity(vol, capacity)`: an empty leaf. -/
def Octree.with_capacity (vol : Volume T) (capacity : ℕ) : Octree T P :=
  .leaf capacity [] vol

/-- `Octree::new(vol)`: empty leaf with `DEFAULT_CAPACITY`. -/
def Octree.new (vol : Volume T) : Octree T P :=
  Octree.with_capacity vol DEFAULT_CAPACITY

/-- `Octree::len()`: own item count plus recursive sum over octants. -/
def Octree.len : Octree T P → ℕ
  | .leaf _ is _ => is.length
  | .internal _ is _ o0 o1 o2 o3 o4 o5 o6 o7 =>
      is.length + o0.len + o1.len + o2.len + o3.len
        + o4.len + o5.len + o6.len + o7.len

/-- `Octree::subdivide()`: sets `octants` to the eight children built from
`hw = max[0] / 2`, `hh = max[1] / 2`, `hd = max[2] / 2` exactly as in the
source (lines 151–171 of `octree/mod.rs`); `items` are kept at this node. -/
def Octree.subdivide (cap : ℕ) (is : List P) (vol : Volume T) :
    Octree T P :=
  let mn := vol.min
  let mx := vol.max
  let hw := mx.1 / val2 T
  let hh := mx.2.1 / val2 T
  let hd := mx.2.2 / val2 T
  .internal cap is vol
    (.leaf cap [] (Volume.new (mn.1, mn.2.1, mn.2.2) (hw, hh, hd)))
    (.leaf cap [] (Volume.new (mn.1 + hh, mn.2.1, mn.2.2) (mx.1, hh, hd)))
    (.leaf cap [] (Volume.new (mn.1, mn.2.1 + hh, mn.2.2) (hw, mx.2.1, hd)))
    (.leaf cap [] (Volume.new (mn.1 + hw, mn.2.1 + hh, mn.2.2) (mx.1, mx.2.1, hd)))
    (.leaf cap [] (Volume.new (mn.1, mn.2.1, hd) (hw, hh, mx.2.2)))
    (.leaf cap [] (Volume.new (mn.1 + hh, mn.2.1, hd) (mx.1, hh, mx.2.2)))
    (.leaf cap [] (Volume.new (mn.1, mn.2.1 + hh, hd) (hw, mx.2.1, mx.2.2)))
    (.leaf cap [] (Volume.new (mn.1 + hw, mn.2.1 + hh, hd) (mx.1, mx.2.1, mx.2.2)))

variable (idx : P → T × T × T)

/-- `Octree::insert(item)`: same shape as the quadtree insert, over the
eight octants; a full leaf subdivides and returns `false`. -/
def Octree.insert : Octree T P → P → Octree T P × Bool
  | .leaf cap is vol, item =>
      if vol.contains (idx item) then
        if is.length < cap then (.leaf cap (is ++ [item]) vol, true)
        else (Octree.subdivide cap is vol, false)
      else (.leaf cap is vol, false)
  | .internal cap is vol o0 o1 o2 o3 o4 o5 o6 o7, item =>
      if vol.contains (idx item) then
        if is.length < cap then
          (.internal cap (is ++ [item]) vol o0 o1 o2 o3 o4 o5 o6 o7, true)
        else
          let r0 := Octree.insert o0 item
          if r0.2 then (.internal cap is vol r0.1 o1 o2 o3 o4 o5 o6 o7, true)
          else
            let r1 := Octree.insert o1 item
            if r1.2 then (.internal cap is vol r0.1 r1.1 o2 o3 o4 o5 o6 o7, true)
            else
              let r2 := Octree.insert o2 item
              if r2.2 then (.internal cap is vol r0.1 r1.1 r2.1 o3 o4 o5 o6 o7, true)
              else
                let r3 := Octree.insert o3 item
                if r3.2 then (.internal cap is vol r0.1 r1.1 r2.1 r3.1 o4 o5 o6 o7, true)
                else
                  let r4 := Octree.insert o4 item
                  if r4.2 then (.internal cap is vol r0.1 r1.1 r2.1 r3.1 r4.1 o5 o6 o7, true)
                  else
                    let r5 := Octree.insert o5 item
                    if r5.2 then (.internal cap is vol r0.1 r1.1 r2.1 r3.1 r4.1 r5.1 o6 o7, true)
                    else
                      let r6 := Octree.insert o6 item
                      if r6.2 then (.internal cap is vol r0.1 r1.1 r2.1 r3.1 r4.1 r5.1 r6.1 o7, true)
                      else
                        let r7 := Octree.insert o7 item
                        (.internal cap is vol r0.1 r1.1 r2.1 r3.1 r4.1 r5.1 r6.1 r7.1, r7.2)
      else (.internal cap is vol o0 o1 o2 o3 o4 o5 o6 o7, false)

/-- `Octree::get_in_volume(vol)`: empty if this node's volume does not
intersect `vol`; otherwise this node's matching items, then the octants'
results in construction order. -/
def Octree.get_in_volume : Octree T P → Volume T → List P
  | .leaf _ is tvol, vol =>
      if tvol.intersects vol then
        is.filter (fun i => vol.contains (idx i))
      else []
  | .internal _ is tvol o0 o1 o2 o3 o4 o5 o6 o7, vol =>
      if tvol.intersects vol then
        is.filter (fun i => vol.contains (idx i))
          ++ o0.get_in_volume vol ++ o1.get_in_volume vol
          ++ o2.get_in_volume vol ++ o3.get_in_volume vol
          ++ o4.get_in_volume vol ++ o5.get_in_volume vol
          ++ o6.get_in_volume vol ++ o7.get_in_volume vol
      else []

/-- `Octree::get_in_radius(center, radius)`: box query on
`[center - radius, center + radius]`, then filter by
`sqrt(d0 + d1 + d2) < radius` — a STRICT comparison in the source
(line 141 of `octree/mod.rs`), unlike the quadtree's `<=`. -/
def Octree.get_in_radius (sqrtF : T → T) (powfF : T → T → T)
    (t : Octree T P) (center : T × T × T) (radius : T) : List P :=
  let mn := (center.1 - radius, center.2.1 - radius, center.2.2 - radius)
  let mx := (center.1 + radius, center.2.1 + radius, center.2.2 + radius)
  let volume := Volume.new mn mx
  let in_box := t.get_in_volume idx volume
  in_box.filter (fun item =>
    let i := idx item
    let d0 := powfF (i.1 - center.1) (val2 T)
    let d1 := powfF (i.2.1 - center.2.1) (val2 T)
    let d2 := powfF (i.2.2 - center.2.2) (val2 T)
    sqrtF (d0 + d1 + d2) < radius)

/-- Analysis helper: drive a list of items through `insert`, returning the
final tree and the accepted items in order. -/
def Octree.insert_all : Octree T P → List P → Octree T P × List P
  | t, [] => (t, [])
  | t, i :: rest =>
      let r := Octree.insert idx t i
      let s := Octree.insert_all r.1 rest
      (s.1, if r.2 then i :: s.2 else s.2)

/-- Analysis helper: the list of octants, `[]` for a leaf. -/
def Octree.children : Octree T P → List (Octree T P)
  | .leaf _ _ _ => []
  | .internal _ _ _ o0 o1 o2 o3 o4 o5 o6 o7 => [o0, o1, o2, o3, o4, o5, o6, o7]

/-- Analysis helper: every item stored anywhere in the tree, this node's
items first, then the octants' in construction order. -/
def Octree.allItems : Octree T P → List P
  | .leaf _ is _ => is
  | .internal _ is _ o0 o1 o2 o3 o4 o5 o6 o7 =>
      is ++ o0.allItems ++ o1.allItems ++ o2.allItems ++ o3.allItems
        ++ o4.allItems ++ o5.allItems ++ o6.allItems ++ o7.allItems

end octree

/-! ### List helper lemmas -/

theorem subperm_append {P : Type} {l₁ l₂ r₁ r₂ : List P}
    (hl : List.Subperm l₁ l₂) (hr : List.Subperm r₁ r₂) :
    List.Subperm (l₁ ++ r₁) (l₂ ++ r₂) := by
  obtain ⟨w, hw, hws⟩ := hl
  obtain ⟨u, hu, hus⟩ := hr
  exact ⟨w ++ u, hw.append hu, hws.append hus⟩

theorem coe_append_ms {P : Type} (l₁ l₂ : List P) :
    ((l₁ ++ l₂ : List P) : Multiset P) = (l₁ : Multiset P) + (l₂ : Multiset P) :=
  (Multiset.coe_add l₁ l₂).symm

theorem coe_cons_ms {P : Type} (a : P) (l : List P) :
    ((a :: l : List P) : Multiset P) = {a} + (l : Multiset P) := by
  rw [Multiset.singleton_add, Multiset.cons_coe]

/-! ### Quadtree lemmas -/

namespace quadtree

variable {T : Type} [LinearOrderedField T] {P : Type} (idx : P → T × T)

/-- Two boxes sharing a common point intersect. -/
theorem contains_contains_intersects {v w : Volume T} {p : T × T}
    (hv : v.contains p = true) (hw : w.contains p = true) :
    v.intersects w = true := by
  simp only [Volume.contains, decide_eq_true_eq] at hv hw
  simp only [Volume.intersects, decide_eq_true_eq, not_or, not_lt, gt_iff_lt]
  obtain ⟨a1, a2, a3, a4⟩ := hv
  obtain ⟨b1, b2, b3, b4⟩ := hw
  refine ⟨⟨?_, ?_⟩, ?_, ?_⟩ <;> linarith

theorem q_volume_insert (t : Quadtree T P) (i : P) :
    (Quadtree.insert idx t i).1.volume = t.volume := by
  cases t <;>
    (simp only [Quadtree.insert]
     repeat' split
     all_goals simp [Quadtree.volume, Quadtree.subdivide])

theorem q_len_insert (t : Quadtree T P) (i : P) :
    (Quadtree.insert idx t i).1.len
      = t.len + (if (Quadtree.insert idx t i).2 = true then 1 else 0) := by
  induction t with
  | leaf cap is vol =>
      simp only [Quadtree.insert]
      by_cases hc : Volume.contains vol (idx i) = true
      · by_cases hl : is.length < cap
        · simp [hc, hl, Quadtree.len]
        · simp [hc, hl, Quadtree.len, Quadtree.subdivide]
      · simp [hc, Quadtree.len]
  | internal cap is vol q0 q1 q2 q3 ih0 ih1 ih2 ih3 =>
      simp only [Quadtree.insert]
      by_cases hc : Volume.contains vol (idx i) = true
      · by_cases hl : is.length < cap
        · simp [hc, hl, Quadtree.len]; omega
        · simp only [hc, hl, if_true, if_false, if_pos, if_neg, not_false_iff]
          by_cases h0 : (Quadtree.insert idx q0 i).2 = true
          · simp [hc, hl, h0, Quadtree.len, ih0]; omega
          · by_cases h1 : (Quadtree.insert idx q1 i).2 = true
            · simp [hc, hl, h0, h1, Quadtree.len, ih0, ih1]; omega
            · by_cases h2 : (Quadtree.insert idx q2 i).2 = true
              · simp [hc, hl, h0, h1, h2, Quadtree.len, ih0, ih1, ih2]; omega
              · simp [hc, hl, h0, h1, h2, Quadtree.len, ih0, ih1, ih2, ih3]
                omega
      · simp [hc, Quadtree.len]

theorem q_allItems_insert (t : Quadtree T P) (i : P) :
    ((Quadtree.insert idx t i).1.allItems : Multiset P)
      = (t.allItems : Multiset P)
        + (if (Quadtree.insert idx t i).2 = true then {i} else 0) := by
  induction t with
  | leaf cap is vol =>
      simp only [Quadtree.insert]
      by_cases hc : Volume.contains vol (idx i) = true
      · by_cases hl : is.length < cap
        · simp only [hc, hl, if_true, Quadtree.allItems, coe_append_ms,
                     coe_cons_ms, Multiset.coe_nil]
          abel
        · simp only [hc, hl, if_true, if_false, Quadtree.allItems,
                     Quadtree.subdivide, coe_append_ms, coe_cons_ms,
                     Multiset.coe_nil, Bool.false_eq_true]
          abel
      · simp only [hc, if_false, Bool.false_eq_true, Quadtree.allItems,
                   Multiset.coe_nil, add_zero]
  | internal cap is vol q0 q1 q2 q3 ih0 ih1 ih2 ih3 =>
      simp only [Quadtree.insert]
      by_cases hc : Volume.contains vol (idx i) = true
      · by_cases hl : is.length < cap
        · simp only [hc, hl, if_true, Quadtree.allItems, coe_append_ms,
                     coe_cons_ms, Multiset.coe_nil]
          abel
        · by_cases h0 : (Quadtree.insert idx q0 i).2 = true
          · simp only [hc, hl, h0, if_true, if_false, Quadtree.allItems,
                       coe_append_ms, coe_cons_ms, Multiset.coe_nil, ih0]
            abel
          · by_cases h1 : (Quadtree.insert idx q1 i).2 = true
            · simp only [hc, hl, h0, h1, if_true, if_false, Quadtree.allItems,
                         coe_append_ms, coe_cons_ms, Multiset.coe_nil,
                         ih0, ih1, Bool.false_eq_true, add_zero]
              abel
            · by_cases h2 : (Quadtree.insert idx q2 i).2 = true
              · simp only [hc, hl, h0, h1, h2, if_true, if_false,
                           Quadtree.allItems, coe_append_ms, coe_cons_ms,
                           Multiset.coe_nil, ih0, ih1, ih2,
                           Bool.false_eq_true, add_zero]
                abel
              · by_cases h3 : (Quadtree.insert idx q3 i).2 = true
                · simp only [hc, hl, h0, h1, h2, h3, if_true, if_false,
                             Quadtree.allItems, coe_append_ms, coe_cons_ms,
                             Multiset.coe_nil, ih0, ih1, ih2, ih3,
                             Bool.false_eq_true, add_zero]
                  abel
                · simp only [hc, hl, h0, h1, h2, h3, if_true, if_false,
                             Quadtree.allItems, coe_append_ms, coe_cons_ms,
                             Multiset.coe_nil, ih0, ih1, ih2, ih3,
                             Bool.false_eq_true, add_zero]
      · simp only [hc, if_false, Bool.false_eq_true, Quadtree.allItems,
                   coe_append_ms, Multiset.coe_nil, add_zero]

/-- Containment invariant: every item stored in the subtree passed the
containment check of every node on its path, in particular of this node. -/
def Quadtree.Good : Quadtree T P → Prop
  | .leaf _ is vol => ∀ p ∈ is, Volume.contains vol (idx p) = true
  | .internal _ is vol q0 q1 q2 q3 =>
      (∀ p ∈ is, Volume.contains vol (idx p) = true) ∧
      (∀ p ∈ q0.allItems, Volume.contains vol (idx p) = true) ∧
      (∀ p ∈ q1.allItems, Volume.contains vol (idx p) = true) ∧
      (∀ p ∈ q2.allItems, Volume.contains vol (idx p) = true) ∧
      (∀ p ∈ q3.allItems, Volume.contains vol (idx p) = true) ∧
      Quadtree.Good q0 ∧ Quadtree.Good q1 ∧ Quadtree.Good q2 ∧ Quadtree.Good q3

theorem q_good_mem {t : Quadtree T P} (hg : Quadtree.Good idx t) :
    ∀ p ∈ t.allItems, Volume.contains t.volume (idx p) = true := by
  cases t with
  | leaf cap is vol => exact hg
  | internal cap is vol q0 q1 q2 q3 =>
      intro p hp
      simp only [Quadtree.allItems, List.mem_append] at hp
      rcases hp with ((((h | h) | h) | h) | h)
      · exact hg.1 p h
      · exact hg.2.1 p h
      · exact hg.2.2.1 p h
      · exact hg.2.2.2.1 p h
      · exact hg.2.2.2.2.1 p h

theorem q_mem_insert {t : Quadtree T P} {i p : P}
    (hp : p ∈ (Quadtree.insert idx t i).1.allItems) :
    p ∈ t.allItems ∨ p = i := by
  have h2 : p ∈ ((Quadtree.insert idx t i).1.allItems : Multiset P) := by
    simpa using hp
  rw [q_allItems_insert] at h2
  rcases Multiset.mem_add.mp h2 with h | h
  · exact Or.inl (by simpa using h)
  · by_cases hb : (Quadtree.insert idx t i).2 = true
    · simp only [hb, if_true, Multiset.mem_singleton] at h
      exact Or.inr h
    · simp only [hb, if_false, Bool.false_eq_true] at h
      exact absurd h (Multiset.not_mem_zero p)

/-- Shape of a full internal node after `insert`: capacity, items and
volume unchanged; each child either untouched or replaced by its own
insert result. -/
theorem q_insert_shape (cap : ℕ) (is : List P) (vol : Volume T)
    (q0 q1 q2 q3 : Quadtree T P) (i : P)
    (hc : Volume.contains vol (idx i) = true) (hl : ¬ is.length < cap) :
    ∃ c0 c1 c2 c3,
      (Quadtree.insert idx (.internal cap is vol q0 q1 q2 q3) i).1
        = .internal cap is vol c0 c1 c2 c3
      ∧ (c0 = q0 ∨ c0 = (Quadtree.insert idx q0 i).1)
      ∧ (c1 = q1 ∨ c1 = (Quadtree.insert idx q1 i).1)
      ∧ (c2 = q2 ∨ c2 = (Quadtree.insert idx q2 i).1)
      ∧ (c3 = q3 ∨ c3 = (Quadtree.insert idx q3 i).1) := by
  simp only [Quadtree.insert, hc, hl, if_true, if_false]
  by_cases h0 : (Quadtree.insert idx q0 i).2 = true
  · simp only [h0, if_true]
    exact ⟨_, _, _, _, rfl, Or.inr rfl, Or.inl rfl, Or.inl rfl, Or.inl rfl⟩
  · simp only [h0, if_false, Bool.false_eq_true]
    by_cases h1 : (Quadtree.insert idx q1 i).2 = true
    · simp only [h1, if_true]
      exact ⟨_, _, _, _, rfl, Or.inr rfl, Or.inr rfl, Or.inl rfl, Or.inl rfl⟩
    · simp only [h1, if_false, Bool.false_eq_true]
      by_cases h2 : (Quadtree.insert idx q2 i).2 = true
      · simp only [h2, if_true]
        exact ⟨_, _, _, _, rfl, Or.inr rfl, Or.inr rfl, Or.inr rfl, Or.inl rfl⟩
      · simp only [h2, if_false, Bool.false_eq_true]
        exact ⟨_, _, _, _, rfl, Or.inr rfl, Or.inr rfl, Or.inr rfl, Or.inr rfl⟩

theorem q_good_insert {t : Quadtree T P} (i : P) (hg : Quadtree.Good idx t) :
    Quadtree.Good idx (Quadtree.insert idx t i).1 := by
  induction t with
  | leaf cap is vol =>
      by_cases hc : Volume.contains vol (idx i) = true
      · by_cases hl : is.length < cap
        · simp only [Quadtree.insert, hc, hl, if_true, Quadtree.Good]
          intro p hp
          rcases List.mem_append.mp hp with h | h
          · exact hg p h
          · rw [List.mem_singleton.mp h]; exact hc
        · simp only [Quadtree.insert, hc, hl, if_true, if_false,
                     Quadtree.subdivide, Quadtree.Good, Quadtree.allItems]
          exact ⟨hg, by simp, by simp, by simp, by simp, by simp [Quadtree.Good],
                 by simp [Quadtree.Good], by simp [Quadtree.Good],
                 by simp [Quadtree.Good]⟩
      · simpa only [Quadtree.insert, hc, if_false, Bool.false_eq_true] using hg
  | internal cap is vol q0 q1 q2 q3 ih0 ih1 ih2 ih3 =>
      by_cases hc : Volume.contains vol (idx i) = true
      · by_cases hl : is.length < cap
        · simp only [Quadtree.insert, hc, hl, if_true, Quadtree.Good]
          refine ⟨?_, hg.2.1, hg.2.2.1, hg.2.2.2.1, hg.2.2.2.2.1,
                  hg.2.2.2.2.2.1, hg.2.2.2.2.2.2.1, hg.2.2.2.2.2.2.2.1,
                  hg.2.2.2.2.2.2.2.2⟩
          intro p hp
          rcases List.mem_append.mp hp with h | h
          · exact hg.1 p h
          · rw [List.mem_singleton.mp h]; exact hc
        · obtain ⟨c0, c1, c2, c3, heq, h0, h1, h2, h3⟩ :=
            q_insert_shape idx cap is vol q0 q1 q2 q3 i hc hl
          rw [heq]
          have memc : ∀ (cj qj : Quadtree T P),
              (cj = qj ∨ cj = (Quadtree.insert idx qj i).1) →
              (∀ p ∈ qj.allItems, Volume.contains vol (idx p) = true) →
              ∀ p ∈ cj.allItems, Volume.contains vol (idx p) = true := by
            rintro cj qj (rfl | rfl) hq p hp
            · exact hq p hp
            · rcases q_mem_insert idx hp with h | rfl
              · exact hq p h
              · exact hc
          have goodc : ∀ (cj qj : Quadtree T P),
              (cj = qj ∨ cj = (Quadtree.insert idx qj i).1) →
              Quadtree.Good idx qj →
              (Quadtree.Good idx qj → Quadtree.Good idx (Quadtree.insert idx qj i).1) →
              Quadtree.Good idx cj := by
            rintro cj qj (rfl | rfl) hq ihq
            · exact hq
            · exact ihq hq
          exact ⟨hg.1,
                 memc c0 q0 h0 hg.2.1, memc c1 q1 h1 hg.2.2.1,
                 memc c2 q2 h2 hg.2.2.2.1, memc c3 q3 h3 hg.2.2.2.2.1,
                 goodc c0 q0 h0 hg.2.2.2.2.2.1 (fun h => ih0 h),
                 goodc c1 q1 h1 hg.2.2.2.2.2.2.1 (fun h => ih1 h),
                 goodc c2 q2 h2 hg.2.2.2.2.2.2.2.1 (fun h => ih2 h),
                 goodc c3 q3 h3 hg.2.2.2.2.2.2.2.2 (fun h => ih3 h)⟩
      · simpa only [Quadtree.insert, hc, if_false, Bool.false_eq_true] using hg

/-- If every stored item is also contained in the query volume, the box
query is never pruned at a nonempty subtree and returns every stored item,
in storage order. -/
theorem q_giv_eq_allItems (t : Quadtree T P) (q : Volume T)
    (hg : Quadtree.Good idx t)
    (hq : ∀ p ∈ t.allItems, Volume.contains q (idx p) = true) :
    Quadtree.get_in_volume idx t q = t.allItems := by
  induction t with
  | leaf cap is vol =>
      by_cases hi : Volume.intersects vol q = true
      · simp only [Quadtree.get_in_volume, hi, if_true, Quadtree.allItems]
        exact List.filter_eq_self.mpr (fun a ha => hq a ha)
      · simp only [Quadtree.get_in_volume, hi, if_false, Bool.false_eq_true,
                   Quadtree.allItems]
        cases is with
        | nil => rfl
        | cons a as =>
            exact absurd
              (contains_contains_intersects (hg a (List.mem_cons_self a as))
                (hq a (List.mem_cons_self a as))) hi
  | internal cap is vol q0 q1 q2 q3 ih0 ih1 ih2 ih3 =>
      have hmem : ∀ p ∈ (Quadtree.internal cap is vol q0 q1 q2 q3).allItems,
          Volume.contains vol (idx p) = true := q_good_mem idx hg
      by_cases hi : Volume.intersects vol q = true
      · simp only [Quadtree.get_in_volume, hi, if_true, Quadtree.allItems]
        have e0 := ih0 hg.2.2.2.2.2.1
          (fun p hp => hq p (by simp [Quadtree.allItems, List.mem_append, hp]))
        have e1 := ih1 hg.2.2.2.2.2.2.1
          (fun p hp => hq p (by simp [Quadtree.allItems, List.mem_append, hp]))
        have e2 := ih2 hg.2.2.2.2.2.2.2.1
          (fun p hp => hq p (by simp [Quadtree.allItems, List.mem_append, hp]))
        have e3 := ih3 hg.2.2.2.2.2.2.2.2
          (fun p hp => hq p (by simp [Quadtree.allItems, List.mem_append, hp]))
        rw [e0, e1, e2, e3,
            List.filter_eq_self.mpr
              (fun a ha => hq a (by simp [Quadtree.allItems, List.mem_append, ha]))]
      · simp only [Quadtree.get_in_volume, hi, if_false, Bool.false_eq_true,
                   Quadtree.allItems]
        rcases hallnil :
            (Quadtree.internal cap is vol q0 q1 q2 q3).allItems with _ | ⟨a, as⟩
        · simpa only [Quadtree.allItems] using hallnil.symm
        · have ha : a ∈ (Quadtree.internal cap is vol q0 q1 q2 q3).allItems := by
            rw [hallnil]; exact List.mem_cons_self a as
          exact absurd
            (contains_contains_intersects (q_good_mem idx hg a ha) (hq a ha)) hi

theorem q_insert_all_volume (l : List P) (t : Quadtree T P) :
    (Quadtree.insert_all idx t l).1.volume = t.volume := by
  induction l generalizing t with
  | nil => simp [Quadtree.insert_all]
  | cons i rest ih =>
      simp only [Quadtree.insert_all]
      rw [ih, q_volume_insert]

theorem q_insert_all_len (l : List P) (t : Quadtree T P) :
    (Quadtree.insert_all idx t l).1.len
      = t.len + (Quadtree.insert_all idx t l).2.length := by
  induction l generalizing t with
  | nil => simp [Quadtree.insert_all]
  | cons i rest ih =>
      simp only [Quadtree.insert_all]
      rw [ih, q_len_insert]
      by_cases hb : (Quadtree.insert idx t i).2 = true
      · simp [hb]; omega
      · simp [hb]

theorem q_insert_all_allItems (l : List P) (t : Quadtree T P) :
    ((Quadtree.insert_all idx t l).1.allItems : Multiset P)
      = (t.allItems : Multiset P) + ((Quadtree.insert_all idx t l).2 : Multiset P) := by
  induction l generalizing t with
  | nil => simp [Quadtree.insert_all]
  | cons i rest ih =>
      simp only [Quadtree.insert_all]
      rw [ih, q_allItems_insert]
      by_cases hb : (Quadtree.insert idx t i).2 = true
      · simp only [hb, if_true, coe_cons_ms]
        abel
      · simp only [hb, if_false, Bool.false_eq_true, add_zero]

theorem q_insert_all_good (l : List P) (t : Quadtree T P)
    (hg : Quadtree.Good idx t) :
    Quadtree.Good idx (Quadtree.insert_all idx t l).1 := by
  induction l generalizing t with
  | nil => simpa [Quadtree.insert_all] using hg
  | cons i rest ih =>
      simp only [Quadtree.insert_all]
      exact ih _ (q_good_insert idx i hg)

/-- Per-node capacity bound: every node holds at most `capacity` items
directly. -/
def Quadtree.Bounded : Quadtree T P → Prop
  | .leaf cap is _ => is.length ≤ cap
  | .internal cap is _ q0 q1 q2 q3 =>
      is.length ≤ cap ∧ q0.Bounded ∧ q1.Bounded ∧ q2.Bounded ∧ q3.Bounded

theorem q_bounded_insert {t : Quadtree T P} (i : P) (hb : t.Bounded) :
    (Quadtree.insert idx t i).1.Bounded := by
  induction t with
  | leaf cap is vol =>
      by_cases hc : Volume.contains vol (idx i) = true
      · by_cases hl : is.length < cap
        · simp only [Quadtree.insert, hc, hl, if_true, Quadtree.Bounded,
                     List.length_append, List.length_singleton]
          omega
        · simp only [Quadtree.insert, hc, hl, if_true, if_false,
                     Quadtree.subdivide, Quadtree.Bounded, List.length_nil]
          exact ⟨hb, by omega, by omega, by omega, by omega⟩
      · simpa only [Quadtree.insert, hc, if_false, Bool.false_eq_true] using hb
  | internal cap is vol q0 q1 q2 q3 ih0 ih1 ih2 ih3 =>
      by_cases hc : Volume.contains vol (idx i) = true
      · by_cases hl : is.length < cap
        · simp only [Quadtree.insert, hc, hl, if_true, Quadtree.Bounded,
                     List.length_append, List.length_singleton]
          exact ⟨by omega, hb.2.1, hb.2.2.1, hb.2.2.2.1, hb.2.2.2.2⟩
        · obtain ⟨c0, c1, c2, c3, heq, h0, h1, h2, h3⟩ :=
            q_insert_shape idx cap is vol q0 q1 q2 q3 i hc hl
          rw [heq]
          have bc : ∀ (cj qj : Quadtree T P),
              (cj = qj ∨ cj = (Quadtree.insert idx qj i).1) →
              qj.Bounded → (qj.Bounded → (Quadtree.insert idx qj i).1.Bounded) →
              cj.Bounded := by
            rintro cj qj (rfl | rfl) hq ihq
            · exact hq
            · exact ihq hq
          exact ⟨hb.1, bc c0 q0 h0 hb.2.1 (fun h => ih0 h),
                 bc c1 q1 h1 hb.2.2.1 (fun h => ih1 h),
                 bc c2 q2 h2 hb.2.2.2.1 (fun h => ih2 h),
                 bc c3 q3 h3 hb.2.2.2.2 (fun h => ih3 h)⟩
      · simpa only [Quadtree.insert, hc, if_false, Bool.false_eq_true] using hb

theorem q_bounded_insert_all (l : List P) (t : Quadtree T P) (hb : t.Bounded) :
    (Quadtree.insert_all idx t l).1.Bounded := by
  induction l generalizing t with
  | nil => simpa [Quadtree.insert_all] using hb
  | cons i rest ih =>
      simp only [Quadtree.insert_all]
      exact ih _ (q_bounded_insert idx i hb)

/-- Capacity-zero, all-empty invariant used for C9. -/
def Quadtree.ZeroCap : Quadtree T P → Prop
  | .leaf cap is _ => cap = 0 ∧ is = []
  | .internal cap is _ q0 q1 q2 q3 =>
      cap = 0 ∧ is = [] ∧ q0.ZeroCap ∧ q1.ZeroCap ∧ q2.ZeroCap ∧ q3.ZeroCap

theorem q_zero_insert {t : Quadtree T P} (i : P) (hz : t.ZeroCap) :
    (Quadtree.insert idx t i).2 = false ∧ (Quadtree.insert idx t i).1.ZeroCap := by
  induction t with
  | leaf cap is vol =>
      obtain ⟨hcap, his⟩ := hz
      subst hcap; subst his
      by_cases hc : Volume.contains vol (idx i) = true
      · simp [Quadtree.insert, hc, Quadtree.subdivide, Quadtree.ZeroCap]
      · simp [Quadtree.insert, hc, Quadtree.ZeroCap]
  | internal cap is vol q0 q1 q2 q3 ih0 ih1 ih2 ih3 =>
      obtain ⟨hcap, his, hz0, hz1, hz2, hz3⟩ := hz
      subst hcap; subst his
      have r0 := ih0 hz0
      have r1 := ih1 hz1
      have r2 := ih2 hz2
      have r3 := ih3 hz3
      by_cases hc : Volume.contains vol (idx i) = true
      · simp only [Quadtree.insert, hc, if_true, List.length_nil,
                   Nat.lt_irrefl, if_false, r0.1, r1.1, r2.1, r3.1,
                   Bool.false_eq_true, Quadtree.ZeroCap]
        exact ⟨True.intro, True.intro, True.intro, r0.2, r1.2, r2.2, r3.2⟩
      · simp only [Quadtree.insert, hc, if_false, Bool.false_eq_true,
                   Quadtree.ZeroCap]
        exact ⟨True.intro, True.intro, True.intro, hz0, hz1, hz2, hz3⟩

theorem q_zero_len {t : Quadtree T P} (hz : t.ZeroCap) : t.len = 0 := by
  induction t with
  | leaf cap is vol => simp [Quadtree.len, hz.2]
  | internal cap is vol q0 q1 q2 q3 ih0 ih1 ih2 ih3 =>
      simp [Quadtree.len, hz.2.1, ih0 hz.2.2.1, ih1 hz.2.2.2.1,
            ih2 hz.2.2.2.2.1, ih3 hz.2.2.2.2.2]

theorem q_zero_insert_all (l : List P) (t : Quadtree T P) (hz : t.ZeroCap) :
    (Quadtree.insert_all idx t l).2 = [] ∧ (Quadtree.insert_all idx t l).1.ZeroCap := by
  induction l generalizing t with
  | nil => exact ⟨rfl, hz⟩
  | cons i rest ih =>
      have r := q_zero_insert idx i hz
      have s := ih _ r.2
      simp only [Quadtree.insert_all, r.1, s.1, if_false, Bool.false_eq_true]
      exact ⟨True.intro, s.2⟩

/-- No duplication: the box query result is a sub-permutation of the
stored items (each stored entry contributes at most once). -/
theorem q_giv_subperm (t : Quadtree T P) (q : Volume T) :
    List.Subperm (Quadtree.get_in_volume idx t q) t.allItems := by
  induction t with
  | leaf cap is vol =>
      simp only [Quadtree.get_in_volume, Quadtree.allItems]
      by_cases hi : Volume.intersects vol q = true
      · simp only [hi, if_true]
        exact (List.filter_sublist is).subperm
      · simp only [hi, if_false, Bool.false_eq_true]
        exact List.nil_subperm
  | internal cap is vol q0 q1 q2 q3 ih0 ih1 ih2 ih3 =>
      simp only [Quadtree.get_in_volume, Quadtree.allItems]
      by_cases hi : Volume.intersects vol q = true
      · simp only [hi, if_true]
        exact subperm_append (subperm_append (subperm_append (subperm_append
          (List.filter_sublist is).subperm ih0) ih1) ih2) ih3
      · simp only [hi, if_false, Bool.false_eq_true]
        exact List.nil_subperm

end quadtree

/-! ### Octree lemmas -/

namespace octree

variable {T : Type} [LinearOrderedField T] {P : Type} (idx : P → T × T × T)

/-- Two boxes sharing a common point intersect (3D). -/
theorem o_contains_contains_intersects {v w : Volume T} {p : T × T × T}
    (hv : v.contains p = true) (hw : w.contains p = true) :
    v.intersects w = true := by
  simp only [Volume.contains, decide_eq_true_eq] at hv hw
  simp only [Volume.intersects, decide_eq_true_eq, not_or, not_lt, gt_iff_lt]
  obtain ⟨a1, a2, a3, a4, a5, a6⟩ := hv
  obtain ⟨b1, b2, b3, b4, b5, b6⟩ := hw
  refine ⟨⟨?_, ?_⟩, ⟨?_, ?_⟩, ?_, ?_⟩ <;> linarith

theorem o_volume_insert (t : Octree T P) (i : P) :
    (Octree.insert idx t i).1.volume = t.volume := by
  cases t <;>
    (simp only [Octree.insert]
     repeat' split
     all_goals simp [Octree.volume, Octree.subdivide])

theorem o_len_insert (t : Octree T P) (i : P) :
    (Octree.insert idx t i).1.len
      = t.len + (if (Octree.insert idx t i).2 = true then 1 else 0) := by
  induction t with
  | leaf cap is vol =>
      simp only [Octree.insert]
      by_cases hc : Volume.contains vol (idx i) = true
      · by_cases hl : is.length < cap
        · simp [hc, hl, Octree.len]
        · simp [hc, hl, Octree.len, Octree.subdivide]
      · simp [hc, Octree.len]
  | internal cap is vol o0 o1 o2 o3 o4 o5 o6 o7 ih0 ih1 ih2 ih3 ih4 ih5 ih6 ih7 =>
      simp only [Octree.insert]
      by_cases hc : Volume.contains vol (idx i) = true
      · by_cases hl : is.length < cap
        · simp [hc, hl, Octree.len]; omega
        · by_cases h0 : (Octree.insert idx o0 i).2 = true
          · simp [hc, hl, h0, Octree.len, ih0]; omega
          · by_cases h1 : (Octree.insert idx o1 i).2 = true
            · simp [hc, hl, h0, h1, Octree.len, ih0, ih1]; omega
            · by_cases h2 : (Octree.insert idx o2 i).2 = true
              · simp [hc, hl, h0, h1, h2, Octree.len, ih0, ih1, ih2]; omega
              · by_cases h3 : (Octree.insert idx o3 i).2 = true
                · simp [hc, hl, h0, h1, h2, h3, Octree.len, ih0, ih1, ih2, ih3]
                  omega
                · by_cases h4 : (Octree.insert idx o4 i).2 = true
                  · simp [hc, hl, h0, h1, h2, h3, h4, Octree.len,
                          ih0, ih1, ih2, ih3, ih4]
                    omega
                  · by_cases h5 : (Octree.insert idx o5 i).2 = true
                    · simp [hc, hl, h0, h1, h2, h3, h4, h5, Octree.len,
                            ih0, ih1, ih2, ih3, ih4, ih5]
                      omega
                    · by_cases h6 : (Octree.insert idx o6 i).2 = true
                      · simp [hc, hl, h0, h1, h2, h3, h4, h5, h6, Octree.len,
                              ih0, ih1, ih2, ih3, ih4, ih5, ih6]
                        omega
                      · simp [hc, hl, h0, h1, h2, h3, h4, h5, h6, Octree.len,
                              ih0, ih1, ih2, ih3, ih4, ih5, ih6, ih7]
                        omega
      · simp [hc, Octree.len]

theorem o_allItems_insert (t : Octree T P) (i : P) :
    ((Octree.insert idx t i).1.allItems : Multiset P)
      = (t.allItems : Multiset P)
        + (if (Octree.insert idx t i).2 = true then {i} else 0) := by
  induction t with
  | leaf cap is vol =>
      simp only [Octree.insert]
      by_cases hc : Volume.contains vol (idx i) = true
      · by_cases hl : is.length < cap
        · simp only [hc, hl, if_true, Octree.allItems, coe_append_ms,
                     coe_cons_ms, Multiset.coe_nil]
          abel
        · simp only [hc, hl, if_true, if_false, Octree.allItems,
                     Octree.subdivide, coe_append_ms, coe_cons_ms,
                     Multiset.coe_nil, Bool.false_eq_true]
          abel
      · simp only [hc, if_false, Bool.false_eq_true, Octree.allItems,
                   Multiset.coe_nil, add_zero]
  | internal cap is vol o0 o1 o2 o3 o4 o5 o6 o7 ih0 ih1 ih2 ih3 ih4 ih5 ih6 ih7 =>
      simp only [Octree.insert]
      by_cases hc : Volume.contains vol (idx i) = true
      · by_cases hl : is.length < cap
        · simp only [hc, hl, if_true, Octree.allItems, coe_append_ms,
                     coe_cons_ms, Multiset.coe_nil]
          abel
        · by_cases h0 : (Octree.insert idx o0 i).2 = true
          · simp only [hc, hl, h0, if_true, if_false, Octree.allItems,
                       coe_append_ms, coe_cons_ms, Multiset.coe_nil, ih0]
            abel
          · by_cases h1 : (Octree.insert idx o1 i).2 = true
            · simp only [hc, hl, h0, h1, if_true, if_false, Octree.allItems,
                         coe_append_ms, coe_cons_ms, Multiset.coe_nil,
                         ih0, ih1, Bool.false_eq_true, add_zero]
              abel
            · by_cases h2 : (Octree.insert idx o2 i).2 = true
              · simp only [hc, hl, h0, h1, h2, if_true, if_false,
                           Octree.allItems, coe_append_ms, coe_cons_ms,
                           Multiset.coe_nil, ih0, ih1, ih2,
                           Bool.false_eq_true, add_zero]
                abel
              · by_cases h3 : (Octree.insert idx o3 i).2 = true
                · simp only [hc, hl, h0, h1, h2, h3, if_true, if_false,
                             Octree.allItems, coe_append_ms, coe_cons_ms,
                             Multiset.coe_nil, ih0, ih1, ih2, ih3,
                             Bool.false_eq_true, add_zero]
                  abel
                · by_cases h4 : (Octree.insert idx o4 i).2 = true
                  · simp only [hc, hl, h0, h1, h2, h3, h4, if_true, if_false,
                               Octree.allItems, coe_append_ms, coe_cons_ms,
                               Multiset.coe_nil, ih0, ih1, ih2, ih3, ih4,
                               Bool.false_eq_true, add_zero]
                    abel
                  · by_cases h5 : (Octree.insert idx o5 i).2 = true
                    · simp only [hc, hl, h0, h1, h2, h3, h4, h5, if_true,
                                 if_false, Octree.allItems, coe_append_ms,
                                 coe_cons_ms, Multiset.coe_nil, ih0, ih1,
                                 ih2, ih3, ih4, ih5,
                                 Bool.false_eq_true, add_zero]
                      abel
                    · by_cases h6 : (Octree.insert idx o6 i).2 = true
                      · simp only [hc, hl, h0, h1, h2, h3, h4, h5, h6,
                                   if_true, if_false, Octree.allItems,
                                   coe_append_ms, coe_cons_ms,
                                   Multiset.coe_nil, ih0, ih1, ih2, ih3,
                                   ih4, ih5, ih6,
                                   Bool.false_eq_true, add_zero]
                        abel
                      · by_cases h7 : (Octree.insert idx o7 i).2 = true
                        · simp only [hc, hl, h0, h1, h2, h3, h4, h5, h6, h7,
                                     if_true, if_false, Octree.allItems,
                                     coe_append_ms, coe_cons_ms,
                                     Multiset.coe_nil, ih0, ih1, ih2, ih3,
                                     ih4, ih5, ih6, ih7,
                                     Bool.false_eq_true, add_zero]
                          abel
                        · simp only [hc, hl, h0, h1, h2, h3, h4, h5, h6, h7,
                                     if_true, if_false, Octree.allItems,
                                     coe_append_ms, coe_cons_ms,
                                     Multiset.coe_nil, ih0, ih1, ih2, ih3,
                                     ih4, ih5, ih6, ih7,
                                     Bool.false_eq_true, add_zero]
      · simp only [hc, if_false, Bool.false_eq_true, Octree.allItems,
                   coe_append_ms, Multiset.coe_nil, add_zero]

/-- Containment invariant: every item stored in the subtree passed the
containment check of every node on its path, in particular of this node. -/
def Octree.Good : Octree T P → Prop
  | .leaf _ is vol => ∀ p ∈ is, Volume.contains vol (idx p) = true
  | .internal _ is vol o0 o1 o2 o3 o4 o5 o6 o7 =>
      (∀ p ∈ is, Volume.contains vol (idx p) = true) ∧
      (∀ p ∈ o0.allItems, Volume.contains vol (idx p) = true) ∧
      (∀ p ∈ o1.allItems, Volume.contains vol (idx p) = true) ∧
      (∀ p ∈ o2.allItems, Volume.contains vol (idx p) = true) ∧
      (∀ p ∈ o3.allItems, Volume.contains vol (idx p) = true) ∧
      (∀ p ∈ o4.allItems, Volume.contains vol (idx p) = true) ∧
      (∀ p ∈ o5.allItems, Volume.contains vol (idx p) = true) ∧
      (∀ p ∈ o6.allItems, Volume.contains vol (idx p) = true) ∧
      (∀ p ∈ o7.allItems, Volume.contains vol (idx p) = true) ∧
      Octree.Good o0 ∧ Octree.Good o1 ∧ Octree.Good o2 ∧ Octree.Good o3 ∧
      Octree.Good o4 ∧ Octree.Good o5 ∧ Octree.Good o6 ∧ Octree.Good o7

theorem o_good_mem {t : Octree T P} (hg : Octree.Good idx t) :
    ∀ p ∈ t.allItems, Volume.contains t.volume (idx p) = true := by
  cases t with
  | leaf cap is vol => exact hg
  | internal cap is vol o0 o1 o2 o3 o4 o5 o6 o7 =>
      obtain ⟨m, m0, m1, m2, m3, m4, m5, m6, m7, -⟩ := hg
      intro p hp
      simp only [Octree.allItems, List.mem_append] at hp
      rcases hp with ((((((((h | h) | h) | h) | h) | h) | h) | h) | h)
      · exact m p h
      · exact m0 p h
      · exact m1 p h
      · exact m2 p h
      · exact m3 p h
      · exact m4 p h
      · exact m5 p h
      · exact m6 p h
      · exact m7 p h

theorem o_mem_insert {t : Octree T P} {i p : P}
    (hp : p ∈ (Octree.insert idx t i).1.allItems) :
    p ∈ t.allItems ∨ p = i := by
  have h2 : p ∈ ((Octree.insert idx t i).1.allItems : Multiset P) := by
    simpa using hp
  rw [o_allItems_insert] at h2
  rcases Multiset.mem_add.mp h2 with h | h
  · exact Or.inl (by simpa using h)
  · by_cases hb : (Octree.insert idx t i).2 = true
    · simp only [hb, if_true, Multiset.mem_singleton] at h
      exact Or.inr h
    · simp only [hb, if_false, Bool.false_eq_true] at h
      exact absurd h (Multiset.not_mem_zero p)

/-- Shape of a full internal node after `insert`: capacity, items and
volume unchanged; each child either untouched or replaced by its own
insert result. -/
theorem o_insert_shape (cap : ℕ) (is : List P) (vol : Volume T)
    (o0 o1 o2 o3 o4 o5 o6 o7 : Octree T P) (i : P)
    (hc : Volume.contains vol (idx i) = true) (hl : ¬ is.length < cap) :
    ∃ c0 c1 c2 c3 c4 c5 c6 c7,
      (Octree.insert idx (.internal cap is vol o0 o1 o2 o3 o4 o5 o6 o7) i).1
        = .internal cap is vol c0 c1 c2 c3 c4 c5 c6 c7
      ∧ (c0 = o0 ∨ c0 = (Octree.insert idx o0 i).1)
      ∧ (c1 = o1 ∨ c1 = (Octree.insert idx o1 i).1)
      ∧ (c2 = o2 ∨ c2 = (Octree.insert idx o2 i).1)
      ∧ (c3 = o3 ∨ c3 = (Octree.insert idx o3 i).1)
      ∧ (c4 = o4 ∨ c4 = (Octree.insert idx o4 i).1)
      ∧ (c5 = o5 ∨ c5 = (Octree.insert idx o5 i).1)
      ∧ (c6 = o6 ∨ c6 = (Octree.insert idx o6 i).1)
      ∧ (c7 = o7 ∨ c7 = (Octree.insert idx o7 i).1) := by
  simp only [Octree.insert, hc, hl, if_true, if_false]
  by_cases h0 : (Octree.insert idx o0 i).2 = true
  · simp only [h0, if_true]
    exact ⟨_, _, _, _, _, _, _, _, rfl, Or.inr rfl, Or.inl rfl, Or.inl rfl,
           Or.inl rfl, Or.inl rfl, Or.inl rfl, Or.inl rfl, Or.inl rfl⟩
  · simp only [h0, if_false, Bool.false_eq_true]
    by_cases h1 : (Octree.insert idx o1 i).2 = true
    · simp only [h1, if_true]
      exact ⟨_, _, _, _, _, _, _, _, rfl, Or.inr rfl, Or.inr rfl, Or.inl rfl,
             Or.inl rfl, Or.inl rfl, Or.inl rfl, Or.inl rfl, Or.inl rfl⟩
    · simp only [h1, if_false, Bool.false_eq_true]
      by_cases h2 : (Octree.insert idx o2 i).2 = true
      · simp only [h2, if_true]
        exact ⟨_, _, _, _, _, _, _, _, rfl, Or.inr rfl, Or.inr rfl, Or.inr rfl,
               Or.inl rfl, Or.inl rfl, Or.inl rfl, Or.inl rfl, Or.inl rfl⟩
      · simp only [h2, if_false, Bool.false_eq_true]
        by_cases h3 : (Octree.insert idx o3 i).2 = true
        · simp only [h3, if_true]
          exact ⟨_, _, _, _, _, _, _, _, rfl, Or.inr rfl, Or.inr rfl,
                 Or.inr rfl, Or.inr rfl, Or.inl rfl, Or.inl rfl, Or.inl rfl,
                 Or.inl rfl⟩
        · simp only [h3, if_false, Bool.false_eq_true]
          by_cases h4 : (Octree.insert idx o4 i).2 = true
          · simp only [h4, if_true]
            exact ⟨_, _, _, _, _, _, _, _, rfl, Or.inr rfl, Or.inr rfl,
                   Or.inr rfl, Or.inr rfl, Or.inr rfl, Or.inl rfl, Or.inl rfl,
                   Or.inl rfl⟩
          · simp only [h4, if_false, Bool.false_eq_true]
            by_cases h5 : (Octree.insert idx o5 i).2 = true
            · simp only [h5, if_true]
              exact ⟨_, _, _, _, _, _, _, _, rfl, Or.inr rfl, Or.inr rfl,
                     Or.inr rfl, Or.inr rfl, Or.inr rfl, Or.inr rfl,
                     Or.inl rfl, Or.inl rfl⟩
            · simp only [h5, if_false, Bool.false_eq_true]
              by_cases h6 : (Octree.insert idx o6 i).2 = true
              · simp only [h6, if_true]
                exact ⟨_, _, _, _, _, _, _, _, rfl, Or.inr rfl, Or.inr rfl,
                       Or.inr rfl, Or.inr rfl, Or.inr rfl, Or.inr rfl,
                       Or.inr rfl, Or.inl rfl⟩
              · simp only [h6, if_false, Bool.false_eq_true]
                exact ⟨_, _, _, _, _, _, _, _, rfl, Or.inr rfl, Or.inr rfl,
                       Or.inr rfl, Or.inr rfl, Or.inr rfl, Or.inr rfl,
                       Or.inr rfl, Or.inr rfl⟩

theorem o_good_insert {t : Octree T P} (i : P) (hg : Octree.Good idx t) :
    Octree.Good idx (Octree.insert idx t i).1 := by
  induction t with
  | leaf cap is vol =>
      by_cases hc : Volume.contains vol (idx i) = true
      · by_cases hl : is.length < cap
        · simp only [Octree.insert, hc, hl, if_true, Octree.Good]
          intro p hp
          rcases List.mem_append.mp hp with h | h
          · exact hg p h
          · rw [List.mem_singleton.mp h]; exact hc
        · simp only [Octree.insert, hc, hl, if_true, if_false,
                     Octree.subdivide, Octree.Good, Octree.allItems]
          refine ⟨hg, ?_⟩
          repeat' constructor
          all_goals simp [Octree.Good]
      · simpa only [Octree.insert, hc, if_false, Bool.false_eq_true] using hg
  | internal cap is vol o0 o1 o2 o3 o4 o5 o6 o7 ih0 ih1 ih2 ih3 ih4 ih5 ih6 ih7 =>
      obtain ⟨m, m0, m1, m2, m3, m4, m5, m6, m7,
              g0, g1, g2, g3, g4, g5, g6, g7⟩ := hg
      by_cases hc : Volume.contains vol (idx i) = true
      · by_cases hl : is.length < cap
        · simp only [Octree.insert, hc, hl, if_true, Octree.Good]
          refine ⟨?_, m0, m1, m2, m3, m4, m5, m6, m7,
                  g0, g1, g2, g3, g4, g5, g6, g7⟩
          intro p hp
          rcases List.mem_append.mp hp with h | h
          · exact m p h
          · rw [List.mem_singleton.mp h]; exact hc
        · obtain ⟨c0, c1, c2, c3, c4, c5, c6, c7, heq,
                  h0, h1, h2, h3, h4, h5, h6, h7⟩ :=
            o_insert_shape idx cap is vol o0 o1 o2 o3 o4 o5 o6 o7 i hc hl
          rw [heq]
          have memc : ∀ (cj qj : Octree T P),
              (cj = qj ∨ cj = (Octree.insert idx qj i).1) →
              (∀ p ∈ qj.allItems, Volume.contains vol (idx p) = true) →
              ∀ p ∈ cj.allItems, Volume.contains vol (idx p) = true := by
            rintro cj qj (rfl | rfl) hq p hp
            · exact hq p hp
            · rcases o_mem_insert idx hp with h | rfl
              · exact hq p h
              · exact hc
          have goodc : ∀ (cj qj : Octree T P),
              (cj = qj ∨ cj = (Octree.insert idx qj i).1) →
              Octree.Good idx qj →
              (Octree.Good idx qj → Octree.Good idx (Octree.insert idx qj i).1) →
              Octree.Good idx cj := by
            rintro cj qj (rfl | rfl) hq ihq
            · exact hq
            · exact ihq hq
          exact ⟨m,
                 memc c0 o0 h0 m0, memc c1 o1 h1 m1, memc c2 o2 h2 m2,
                 memc c3 o3 h3 m3, memc c4 o4 h4 m4, memc c5 o5 h5 m5,
                 memc c6 o6 h6 m6, memc c7 o7 h7 m7,
                 goodc c0 o0 h0 g0 (fun h => ih0 h),
                 goodc c1 o1 h1 g1 (fun h => ih1 h),
                 goodc c2 o2 h2 g2 (fun h => ih2 h),
                 goodc c3 o3 h3 g3 (fun h => ih3 h),
                 goodc c4 o4 h4 g4 (fun h => ih4 h),
                 goodc c5 o5 h5 g5 (fun h => ih5 h),
                 goodc c6 o6 h6 g6 (fun h => ih6 h),
                 goodc c7 o7 h7 g7 (fun h => ih7 h)⟩
      · simp only [Octree.insert, hc, if_false, Bool.false_eq_true]
        exact ⟨m, m0, m1, m2, m3, m4, m5, m6, m7,
               g0, g1, g2, g3, g4, g5, g6, g7⟩

/-- If every stored item is also contained in the query volume, the box
query is never pruned at a nonempty subtree and returns every stored item,
in storage order. -/
theorem o_giv_eq_allItems (t : Octree T P) (q : Volume T)
    (hg : Octree.Good idx t)
    (hq : ∀ p ∈ t.allItems, Volume.contains q (idx p) = true) :
    Octree.get_in_volume idx t q = t.allItems := by
  induction t with
  | leaf cap is vol =>
      by_cases hi : Volume.intersects vol q = true
      · simp only [Octree.get_in_volume, hi, if_true, Octree.allItems]
        exact List.filter_eq_self.mpr (fun a ha => hq a ha)
      · simp only [Octree.get_in_volume, hi, if_false, Bool.false_eq_true,
                   Octree.allItems]
        cases is with
        | nil => rfl
        | cons a as =>
            exact absurd
              (o_contains_contains_intersects (hg a (List.mem_cons_self a as))
                (hq a (List.mem_cons_self a as))) hi
  | internal cap is vol o0 o1 o2 o3 o4 o5 o6 o7 ih0 ih1 ih2 ih3 ih4 ih5 ih6 ih7 =>
      by_cases hi : Volume.intersects vol q = true
      · simp only [Octree.get_in_volume, hi, if_true, Octree.allItems]
        obtain ⟨m, m0, m1, m2, m3, m4, m5, m6, m7,
                g0, g1, g2, g3, g4, g5, g6, g7⟩ := hg
        have e0 := ih0 g0
          (fun p hp => hq p (by simp [Octree.allItems, List.mem_append, hp]))
        have e1 := ih1 g1
          (fun p hp => hq p (by simp [Octree.allItems, List.mem_append, hp]))
        have e2 := ih2 g2
          (fun p hp => hq p (by simp [Octree.allItems, List.mem_append, hp]))
        have e3 := ih3 g3
          (fun p hp => hq p (by simp [Octree.allItems, List.mem_append, hp]))
        have e4 := ih4 g4
          (fun p hp => hq p (by simp [Octree.allItems, List.mem_append, hp]))
        have e5 := ih5 g5
          (fun p hp => hq p (by simp [Octree.allItems, List.mem_append, hp]))
        have e6 := ih6 g6
          (fun p hp => hq p (by simp [Octree.allItems, List.mem_append, hp]))
        have e7 := ih7 g7
          (fun p hp => hq p (by simp [Octree.allItems, List.mem_append, hp]))
        rw [e0, e1, e2, e3, e4, e5, e6, e7,
            List.filter_eq_self.mpr
              (fun a ha => hq a (by simp [Octree.allItems, List.mem_append, ha]))]
      · simp only [Octree.get_in_volume, hi, if_false, Bool.false_eq_true,
                   Octree.allItems]
        rcases hallnil :
            (Octree.internal cap is vol o0 o1 o2 o3 o4 o5 o6 o7).allItems
          with _ | ⟨a, as⟩
        · simpa only [Octree.allItems] using hallnil.symm
        · have ha :
              a ∈ (Octree.internal cap is vol o0 o1 o2 o3 o4 o5 o6 o7).allItems := by
            rw [hallnil]; exact List.mem_cons_self a as
          exact absurd
            (o_contains_contains_intersects (o_good_mem idx hg a ha) (hq a ha)) hi

theorem o_insert_all_volume (l : List P) (t : Octree T P) :
    (Octree.insert_all idx t l).1.volume = t.volume := by
  induction l generalizing t with
  | nil => simp [Octree.insert_all]
  | cons i rest ih =>
      simp only [Octree.insert_all]
      rw [ih, o_volume_insert]

theorem o_insert_all_len (l : List P) (t : Octree T P) :
    (Octree.insert_all idx t l).1.len
      = t.len + (Octree.insert_all idx t l).2.length := by
  induction l generalizing t with
  | nil => simp [Octree.insert_all]
  | cons i rest ih =>
      simp only [Octree.insert_all]
      rw [ih, o_len_insert]
      by_cases hb : (Octree.insert idx t i).2 = true
      · simp [hb]; omega
      · simp [hb]

theorem o_insert_all_allItems (l : List P) (t : Octree T P) :
    ((Octree.insert_all idx t l).1.allItems : Multiset P)
      = (t.allItems : Multiset P) + ((Octree.insert_all idx t l).2 : Multiset P) := by
  induction l generalizing t with
  | nil => simp [Octree.insert_all]
  | cons i rest ih =>
      simp only [Octree.insert_all]
      rw [ih, o_allItems_insert]
      by_cases hb : (Octree.insert idx t i).2 = true
      · simp only [hb, if_true, coe_cons_ms]
        abel
      · simp only [hb, if_false, Bool.false_eq_true, add_zero]

theorem o_insert_all_good (l : List P) (t : Octree T P)
    (hg : Octree.Good idx t) :
    Octree.Good idx (Octree.insert_all idx t l).1 := by
  induction l generalizing t with
  | nil => simpa [Octree.insert_all] using hg
  | cons i rest ih =>
      simp only [Octree.insert_all]
      exact ih _ (o_good_insert idx i hg)

/-- Per-node capacity bound: every node holds at most `capacity` items
directly. -/
def Octree.Bounded : Octree T P → Prop
  | .leaf cap is _ => is.length ≤ cap
  | .internal cap is _ o0 o1 o2 o3 o4 o5 o6 o7 =>
      is.length ≤ cap ∧ o0.Bounded ∧ o1.Bounded ∧ o2.Bounded ∧ o3.Bounded ∧
        o4.Bounded ∧ o5.Bounded ∧ o6.Bounded ∧ o7.Bounded

theorem o_bounded_insert {t : Octree T P} (i : P) (hb : t.Bounded) :
    (Octree.insert idx t i).1.Bounded := by
  induction t with
  | leaf cap is vol =>
      by_cases hc : Volume.contains vol (idx i) = true
      · by_cases hl : is.length < cap
        · simp only [Octree.insert, hc, hl, if_true, Octree.Bounded,
                     List.length_append, List.length_singleton]
          omega
        · simp only [Octree.insert, hc, hl, if_true, if_false,
                     Octree.subdivide, Octree.Bounded, List.length_nil]
          exact ⟨hb, by omega, by omega, by omega, by omega,
                 by omega, by omega, by omega, by omega⟩
      · simpa only [Octree.insert, hc, if_false, Bool.false_eq_true] using hb
  | internal cap is vol o0 o1 o2 o3 o4 o5 o6 o7 ih0 ih1 ih2 ih3 ih4 ih5 ih6 ih7 =>
      obtain ⟨m, b0, b1, b2, b3, b4, b5, b6, b7⟩ := hb
      by_cases hc : Volume.contains vol (idx i) = true
      · by_cases hl : is.length < cap
        · simp only [Octree.insert, hc, hl, if_true, Octree.Bounded,
                     List.length_append, List.length_singleton]
          exact ⟨by omega, b0, b1, b2, b3, b4, b5, b6, b7⟩
        · obtain ⟨c0, c1, c2, c3, c4, c5, c6, c7, heq,
                  h0, h1, h2, h3, h4, h5, h6, h7⟩ :=
            o_insert_shape idx cap is vol o0 o1 o2 o3 o4 o5 o6 o7 i hc hl
          rw [heq]
          have bc : ∀ (cj qj : Octree T P),
              (cj = qj ∨ cj = (Octree.insert idx qj i).1) →
              qj.Bounded → (qj.Bounded → (Octree.insert idx qj i).1.Bounded) →
              cj.Bounded := by
            rintro cj qj (rfl | rfl) hq ihq
            · exact hq
            · exact ihq hq
          exact ⟨m, bc c0 o0 h0 b0 (fun h => ih0 h),
                 bc c1 o1 h1 b1 (fun h => ih1 h),
                 bc c2 o2 h2 b2 (fun h => ih2 h),
                 bc c3 o3 h3 b3 (fun h => ih3 h),
                 bc c4 o4 h4 b4 (fun h => ih4 h),
                 bc c5 o5 h5 b5 (fun h => ih5 h),
                 bc c6 o6 h6 b6 (fun h => ih6 h),
                 bc c7 o7 h7 b7 (fun h => ih7 h)⟩
      · simp only [Octree.insert, hc, if_false, Bool.false_eq_true]
        exact ⟨m, b0, b1, b2, b3, b4, b5, b6, b7⟩

theorem o_bounded_insert_all (l : List P) (t : Octree T P) (hb : t.Bounded) :
    (Octree.insert_all idx t l).1.Bounded := by
  induction l generalizing t with
  | nil => simpa [Octree.insert_all] using hb
  | cons i rest ih =>
      simp only [Octree.insert_all]
      exact ih _ (o_bounded_insert idx i hb)

/-- Capacity-zero, all-empty invariant used for C9. -/
def Octree.ZeroCap : Octree T P → Prop
  | .leaf cap is _ => cap = 0 ∧ is = []
  | .internal cap is _ o0 o1 o2 o3 o4 o5 o6 o7 =>
      cap = 0 ∧ is = [] ∧ o0.ZeroCap ∧ o1.ZeroCap ∧ o2.ZeroCap ∧ o3.ZeroCap ∧
        o4.ZeroCap ∧ o5.ZeroCap ∧ o6.ZeroCap ∧ o7.ZeroCap

theorem o_zero_insert {t : Octree T P} (i : P) (hz : t.ZeroCap) :
    (Octree.insert idx t i).2 = false ∧ (Octree.insert idx t i).1.ZeroCap := by
  induction t with
  | leaf cap is vol =>
      obtain ⟨hcap, his⟩ := hz
      subst hcap; subst his
      by_cases hc : Volume.contains vol (idx i) = true
      · simp [Octree.insert, hc, Octree.subdivide, Octree.ZeroCap]
      · simp [Octree.insert, hc, Octree.ZeroCap]
  | internal cap is vol o0 o1 o2 o3 o4 o5 o6 o7 ih0 ih1 ih2 ih3 ih4 ih5 ih6 ih7 =>
      obtain ⟨hcap, his, hz0, hz1, hz2, hz3, hz4, hz5, hz6, hz7⟩ := hz
      subst hcap; subst his
      have r0 := ih0 hz0
      have r1 := ih1 hz1
      have r2 := ih2 hz2
      have r3 := ih3 hz3
      have r4 := ih4 hz4
      have r5 := ih5 hz5
      have r6 := ih6 hz6
      have r7 := ih7 hz7
      by_cases hc : Volume.contains vol (idx i) = true
      · simp only [Octree.insert, hc, if_true, List.length_nil,
                   Nat.lt_irrefl, if_false, r0.1, r1.1, r2.1, r3.1,
                   r4.1, r5.1, r6.1, r7.1, Bool.false_eq_true, Octree.ZeroCap]
        exact ⟨True.intro, True.intro, True.intro, r0.2, r1.2, r2.2, r3.2,
               r4.2, r5.2, r6.2, r7.2⟩
      · simp only [Octree.insert, hc, if_false, Bool.false_eq_true,
                   Octree.ZeroCap]
        exact ⟨True.intro, True.intro, True.intro, hz0, hz1, hz2, hz3,
               hz4, hz5, hz6, hz7⟩

theorem o_zero_len {t : Octree T P} (hz : t.ZeroCap) : t.len = 0 := by
  induction t with
  | leaf cap is vol => simp [Octree.len, hz.2]
  | internal cap is vol o0 o1 o2 o3 o4 o5 o6 o7 ih0 ih1 ih2 ih3 ih4 ih5 ih6 ih7 =>
      obtain ⟨hcap, his, hz0, hz1, hz2, hz3, hz4, hz5, hz6, hz7⟩ := hz
      simp [Octree.len, his, ih0 hz0, ih1 hz1, ih2 hz2, ih3 hz3,
            ih4 hz4, ih5 hz5, ih6 hz6, ih7 hz7]

theorem o_zero_insert_all (l : List P) (t : Octree T P) (hz : t.ZeroCap) :
    (Octree.insert_all idx t l).2 = [] ∧ (Octree.insert_all idx t l).1.ZeroCap := by
  induction l generalizing t with
  | nil => exact ⟨rfl, hz⟩
  | cons i rest ih =>
      have r := o_zero_insert idx i hz
      have s := ih _ r.2
      simp only [Octree.insert_all, r.1, s.1, if_false, Bool.false_eq_true]
      exact ⟨True.intro, s.2⟩

/-- No duplication: the box query result is a sub-permutation of the
stored items (each stored entry contributes at most once). -/
theorem o_giv_subperm (t : Octree T P) (q : Volume T) :
    List.Subperm (Octree.get_in_volume idx t q) t.allItems := by
  induction t with
  | leaf cap is vol =>
      simp only [Octree.get_in_volume, Octree.allItems]
      by_cases hi : Volume.intersects vol q = true
      · simp only [hi, if_true]
        exact (List.filter_sublist is).subperm
      · simp only [hi, if_false, Bool.false_eq_true]
        exact List.nil_subperm
  | internal cap is vol o0 o1 o2 o3 o4 o5 o6 o7 ih0 ih1 ih2 ih3 ih4 ih5 ih6 ih7 =>
      simp only [Octree.get_in_volume, Octree.allItems]
      by_cases hi : Volume.intersects vol q = true
      · simp only [hi, if_true]
        exact subperm_append (subperm_append (subperm_append (subperm_append
          (subperm_append (subperm_append (subperm_append (subperm_append
            (List.filter_sublist is).subperm ih0) ih1) ih2) ih3) ih4) ih5)
              ih6) ih7
      · simp only [hi, if_false, Bool.false_eq_true]
        exact List.nil_subperm

end octree

/-! ### Shared numeric helper lemmas -/

theorem val2_eq (T : Type) [LinearOrderedField T] : val2 T = 2 := by
  simp [val2, numCastFrom]

theorem rpow_val2 (x : ℝ) : Real.rpow x (val2 ℝ) = x ^ 2 := by
  have h : Real.rpow x (((2:ℕ) : ℝ)) = x ^ (2:ℕ) := Real.rpow_natCast x 2
  rw [val2_eq, show (2:ℝ) = ((2:ℕ):ℝ) from by norm_num]
  exact h

theorem sqrt_twentyfive : Real.sqrt 25 = 5 := by
  rw [show (25 : ℝ) = 5 ^ 2 by norm_num, Real.sqrt_sq (by norm_num : (0:ℝ) ≤ 5)]

theorem sqrt_nine : Real.sqrt 9 = 3 := by
  rw [show (9 : ℝ) = 3 ^ 2 by norm_num, Real.sqrt_sq (by norm_num : (0:ℝ) ≤ 3)]

/-! ### Claim theorems -/

/-- C1: the claim states `insert` returns `true` iff the item is contained
in the root volume, in particular at a full leaf (subdivide then place).
The code instead subdivides and returns `false`, dropping the in-bounds
item: with capacity 1 and root `[(0,0),(10,10)]`, inserting `(5,5)`
succeeds, then inserting the contained point `(6,6)` returns `false` and
`len` stays 1 (the spec flags this as the subdivide-without-redistribute
defect, §9).  Likewise for the octree. -/
theorem C1_insert_full_leaf_drops_contained_item :
    (quadtree.Volume.contains (quadtree.Volume.new ((0:ℚ), 0) (10, 10)) (6, 6) = true
      ∧ (quadtree.Quadtree.insert id
          (quadtree.Quadtree.with_capacity (quadtree.Volume.new ((0:ℚ), 0) (10, 10)) 1)
          (5, 5)).2 = true
      ∧ (quadtree.Quadtree.insert id
          (quadtree.Quadtree.insert id
            (quadtree.Quadtree.with_capacity (quadtree.Volume.new ((0:ℚ), 0) (10, 10)) 1)
            (5, 5)).1 (6, 6)).2 = false
      ∧ (quadtree.Quadtree.insert id
          (quadtree.Quadtree.insert id
            (quadtree.Quadtree.with_capacity (quadtree.Volume.new ((0:ℚ), 0) (10, 10)) 1)
            (5, 5)).1 (6, 6)).1.len = 1)
    ∧ (octree.Volume.contains (octree.Volume.new ((0:ℚ), 0, 0) (10, 10, 10)) (6, 6, 6) = true
      ∧ (octree.Octree.insert id
          (octree.Octree.with_capacity (octree.Volume.new ((0:ℚ), 0, 0) (10, 10, 10)) 1)
          (5, 5, 5)).2 = true
      ∧ (octree.Octree.insert id
          (octree.Octree.insert id
            (octree.Octree.with_capacity (octree.Volume.new ((0:ℚ), 0, 0) (10, 10, 10)) 1)
            (5, 5, 5)).1 (6, 6, 6)).2 = false
      ∧ (octree.Octree.insert id
          (octree.Octree.insert id
            (octree.Octree.with_capacity (octree.Volume.new ((0:ℚ), 0, 0) (10, 10, 10)) 1)
            (5, 5, 5)).1 (6, 6, 6)).1.len = 1) := by
  decide

/-- C2: the claim states `subdivide` splits at the per-axis midpoint
`(min + max) / 2` and the children tile the parent exactly.  The code
splits at `max / 2` (and offsets the x-axis of some children by `hh`), so
for the node volume `[(2,2),(10,10)]` the four child volumes are
`[(2,2),(5,5)]`, `[(7,2),(10,5)]`, `[(2,7),(5,10)]`, `[(7,7),(10,10)]`,
and the point `(6,6)` lies in the parent but in none of the children — the
union does not cover the parent.  Likewise for the octree with volume
`[(2,2,2),(10,10,10)]` and point `(6,6,6)`. -/
theorem C2_subdivide_children_do_not_tile_parent :
    ((quadtree.Volume.contains (quadtree.Volume.new ((2:ℚ), 2) (10, 10)) (6, 6) = true
      ∧ ((quadtree.Quadtree.subdivide 8 ([] : List (ℚ × ℚ))
            (quadtree.Volume.new ((2:ℚ), 2) (10, 10))).children.map
              quadtree.Quadtree.volume)
          = [quadtree.Volume.new (2, 2) (5, 5), quadtree.Volume.new (7, 2) (10, 5),
             quadtree.Volume.new (2, 7) (5, 10), quadtree.Volume.new (7, 7) (10, 10)]
      ∧ quadtree.Volume.contains (quadtree.Volume.new ((2:ℚ), 2) (5, 5)) (6, 6) = false
      ∧ quadtree.Volume.contains (quadtree.Volume.new ((7:ℚ), 2) (10, 5)) (6, 6) = false
      ∧ quadtree.Volume.contains (quadtree.Volume.new ((2:ℚ), 7) (5, 10)) (6, 6) = false
      ∧ quadtree.Volume.contains (quadtree.Volume.new ((7:ℚ), 7) (10, 10)) (6, 6) = false)
    ∧ (octree.Volume.contains (octree.Volume.new ((2:ℚ), 2, 2) (10, 10, 10)) (6, 6, 6) = true
      ∧ ((octree.Octree.subdivide 8 ([] : List (ℚ × ℚ × ℚ))
            (octree.Volume.new ((2:ℚ), 2, 2) (10, 10, 10))).children.map
              octree.Octree.volume)
          = [octree.Volume.new (2, 2, 2) (5, 5, 5), octree.Volume.new (7, 2, 2) (10, 5, 5),
             octree.Volume.new (2, 7, 2) (5, 10, 5), octree.Volume.new (7, 7, 2) (10, 10, 5),
             octree.Volume.new (2, 2, 5) (5, 5, 10), octree.Volume.new (7, 2, 5) (10, 5, 10),
             octree.Volume.new (2, 7, 5) (5, 10, 10), octree.Volume.new (7, 7, 5) (10, 10, 10)]
      ∧ octree.Volume.contains (octree.Volume.new ((2:ℚ), 2, 2) (5, 5, 5)) (6, 6, 6) = false
      ∧ octree.Volume.contains (octree.Volume.new ((7:ℚ), 2, 2) (10, 5, 5)) (6, 6, 6) = false
      ∧ octree.Volume.contains (octree.Volume.new ((2:ℚ), 7, 2) (5, 10, 5)) (6, 6, 6) = false
      ∧ octree.Volume.contains (octree.Volume.new ((7:ℚ), 7, 2) (10, 10, 5)) (6, 6, 6) = false
      ∧ octree.Volume.contains (octree.Volume.new ((2:ℚ), 2, 5) (5, 5, 10)) (6, 6, 6) = false
      ∧ octree.Volume.contains (octree.Volume.new ((7:ℚ), 2, 5) (10, 5, 10)) (6, 6, 6) = false
      ∧ octree.Volume.contains (octree.Volume.new ((2:ℚ), 7, 5) (5, 10, 10)) (6, 6, 6) = false
      ∧ octree.Volume.contains (octree.Volume.new ((7:ℚ), 7, 5) (10, 10, 10)) (6, 6, 6) = false)) := by
  refine ⟨⟨by decide, ?_, by decide, by decide, by decide, by decide⟩,
          by decide, ?_, by decide, by decide, by decide, by decide,
          by decide, by decide, by decide, by decide⟩
  · simp only [quadtree.Quadtree.subdivide, quadtree.Quadtree.children,
               quadtree.Quadtree.volume, quadtree.Volume.new, val2_eq,
               List.map, quadtree.Volume.mk.injEq, Prod.mk.injEq,
               List.cons.injEq, List.nil_eq]
    norm_num
  · simp only [octree.Octree.subdivide, octree.Octree.children,
               octree.Octree.volume, octree.Volume.new, val2_eq,
               List.map, octree.Volume.mk.injEq, Prod.mk.injEq,
               List.cons.injEq, List.nil_eq]
    norm_num

/-- C3: after any sequence of inserts into a freshly constructed tree,
`len()` equals the number of insert calls that returned `true` (both
quadtree and octree): accepted items are never lost from the count and
never double-counted. -/
theorem C3_len_equals_accepted_count :
    (∀ (T : Type) [LinearOrderedField T] (P : Type) (idx : P → T × T)
       (vol : quadtree.Volume T) (cap : ℕ) (l : List P),
       (quadtree.Quadtree.insert_all idx
         (quadtree.Quadtree.with_capacity vol cap) l).1.len
         = (quadtree.Quadtree.insert_all idx
             (quadtree.Quadtree.with_capacity vol cap) l).2.length)
    ∧ (∀ (T : Type) [LinearOrderedField T] (P : Type) (idx : P → T × T × T)
       (vol : octree.Volume T) (cap : ℕ) (l : List P),
       (octree.Octree.insert_all idx
         (octree.Octree.with_capacity vol cap) l).1.len
         = (octree.Octree.insert_all idx
             (octree.Octree.with_capacity vol cap) l).2.length) := by
  constructor
  · intro T _ P idx vol cap l
    rw [quadtree.q_insert_all_len]
    simp [quadtree.Quadtree.with_capacity, quadtree.Quadtree.len]
  · intro T _ P idx vol cap l
    rw [octree.o_insert_all_len]
    simp [octree.Octree.with_capacity, octree.Octree.len]

/-- C5: `get_in_volume` queried with the tree's full root volume returns
exactly the multiset of items accepted (`true` results) by the prior
inserts — order-insensitive set/multiset equality — for both the quadtree
and the octree, any root volume and any capacity. -/
theorem C5_full_volume_query_returns_accepted_items :
    (∀ (T : Type) [LinearOrderedField T] (P : Type) (idx : P → T × T)
       (vol : quadtree.Volume T) (cap : ℕ) (l : List P),
       List.Perm
         (quadtree.Quadtree.get_in_volume idx
           (quadtree.Quadtree.insert_all idx
             (quadtree.Quadtree.with_capacity vol cap) l).1 vol)
         (quadtree.Quadtree.insert_all idx
           (quadtree.Quadtree.with_capacity vol cap) l).2)
    ∧ (∀ (T : Type) [LinearOrderedField T] (P : Type) (idx : P → T × T × T)
       (vol : octree.Volume T) (cap : ℕ) (l : List P),
       List.Perm
         (octree.Octree.get_in_volume idx
           (octree.Octree.insert_all idx
             (octree.Octree.with_capacity vol cap) l).1 vol)
         (octree.Octree.insert_all idx
           (octree.Octree.with_capacity vol cap) l).2) := by
  constructor
  · intro T _ P idx vol cap l
    have hg0 : quadtree.Quadtree.Good idx
        (quadtree.Quadtree.with_capacity (P := P) vol cap) := by
      simp [quadtree.Quadtree.with_capacity, quadtree.Quadtree.Good]
    have hg := quadtree.q_insert_all_good idx l _ hg0
    have hvol : (quadtree.Quadtree.insert_all idx
        (quadtree.Quadtree.with_capacity vol cap) l).1.volume = vol := by
      rw [quadtree.q_insert_all_volume]
      rfl
    have hq : ∀ p ∈ (quadtree.Quadtree.insert_all idx
        (quadtree.Quadtree.with_capacity vol cap) l).1.allItems,
        quadtree.Volume.contains vol (idx p) = true := by
      intro p hp
      have h := quadtree.q_good_mem idx hg p hp
      rwa [hvol] at h
    rw [quadtree.q_giv_eq_allItems idx _ vol hg hq]
    refine Multiset.coe_eq_coe.mp ?_
    rw [quadtree.q_insert_all_allItems]
    simp [quadtree.Quadtree.with_capacity, quadtree.Quadtree.allItems]
  · intro T _ P idx vol cap l
    have hg0 : octree.Octree.Good idx
        (octree.Octree.with_capacity (P := P) vol cap) := by
      simp [octree.Octree.with_capacity, octree.Octree.Good]
    have hg := octree.o_insert_all_good idx l _ hg0
    have hvol : (octree.Octree.insert_all idx
        (octree.Octree.with_capacity vol cap) l).1.volume = vol := by
      rw [octree.o_insert_all_volume]
      rfl
    have hq : ∀ p ∈ (octree.Octree.insert_all idx
        (octree.Octree.with_capacity vol cap) l).1.allItems,
        octree.Volume.contains vol (idx p) = true := by
      intro p hp
      have h := octree.o_good_mem idx hg p hp
      rwa [hvol] at h
    rw [octree.o_giv_eq_allItems idx _ vol hg hq]
    refine Multiset.coe_eq_coe.mp ?_
    rw [octree.o_insert_all_allItems]
    simp [octree.Octree.with_capacity, octree.Octree.allItems]

/-- C8: in every tree reachable from a constructor by inserts, every node
— leaf or internal — directly holds at most `capacity` items, because the
push is guarded by `items.len() < capacity` (both quadtree and octree). -/
theorem C8_every_node_within_capacity :
    (∀ (T : Type) [LinearOrderedField T] (P : Type) (idx : P → T × T)
       (vol : quadtree.Volume T) (cap : ℕ) (l : List P),
       (quadtree.Quadtree.insert_all idx
         (quadtree.Quadtree.with_capacity vol cap) l).1.Bounded)
    ∧ (∀ (T : Type) [LinearOrderedField T] (P : Type) (idx : P → T × T × T)
       (vol : octree.Volume T) (cap : ℕ) (l : List P),
       (octree.Octree.insert_all idx
         (octree.Octree.with_capacity vol cap) l).1.Bounded) := by
  constructor
  · intro T _ P idx vol cap l
    refine quadtree.q_bounded_insert_all idx l _ ?_
    simp [quadtree.Quadtree.with_capacity, quadtree.Quadtree.Bounded]
  · intro T _ P idx vol cap l
    refine octree.o_bounded_insert_all idx l _ ?_
    simp [octree.Octree.with_capacity, octree.Octree.Bounded]

/-- C9: a tree constructed with `with_capacity(vol, 0)` rejects every
insert (the accepted list stays empty, and the very next insert after any
sequence still returns `false`, even for contained coordinates), and
`len()` stays 0 (both quadtree and octree). -/
theorem C9_capacity_zero_rejects_everything :
    (∀ (T : Type) [LinearOrderedField T] (P : Type) (idx : P → T × T)
       (vol : quadtree.Volume T) (l : List P) (i : P),
       (quadtree.Quadtree.insert_all idx
         (quadtree.Quadtree.with_capacity vol 0) l).2 = []
       ∧ (quadtree.Quadtree.insert idx
           (quadtree.Quadtree.insert_all idx
             (quadtree.Quadtree.with_capacity vol 0) l).1 i).2 = false
       ∧ (quadtree.Quadtree.insert_all idx
           (quadtree.Quadtree.with_capacity vol 0) l).1.len = 0)
    ∧ (∀ (T : Type) [LinearOrderedField T] (P : Type) (idx : P → T × T × T)
       (vol : octree.Volume T) (l : List P) (i : P),
       (octree.Octree.insert_all idx
         (octree.Octree.with_capacity vol 0) l).2 = []
       ∧ (octree.Octree.insert idx
           (octree.Octree.insert_all idx
             (octree.Octree.with_capacity vol 0) l).1 i).2 = false
       ∧ (octree.Octree.insert_all idx
           (octree.Octree.with_capacity vol 0) l).1.len = 0) := by
  constructor
  · intro T _ P idx vol l i
    have hz0 : quadtree.Quadtree.ZeroCap
        (quadtree.Quadtree.with_capacity (P := P) vol 0) := by
      simp [quadtree.Quadtree.with_capacity, quadtree.Quadtree.ZeroCap]
    have h := quadtree.q_zero_insert_all idx l _ hz0
    exact ⟨h.1, (quadtree.q_zero_insert idx i h.2).1, quadtree.q_zero_len h.2⟩
  · intro T _ P idx vol l i
    have hz0 : octree.Octree.ZeroCap
        (octree.Octree.with_capacity (P := P) vol 0) := by
      simp [octree.Octree.with_capacity, octree.Octree.ZeroCap]
    have h := octree.o_zero_insert_all idx l _ hz0
    exact ⟨h.1, (octree.o_zero_insert idx i h.2).1, octree.o_zero_len h.2⟩

/-- C10: the modelled scalar cast `NumCast::from(2)` always succeeds on
the embedded scalar (in particular at the rational and real
instantiations standing in for `f32`/`f64`), and its unwrap is exactly the
value `val2` that `subdivide` and `get_in_radius` use — the panic branch
of the unwrap is unreachable. -/
theorem C10_numcast_two_never_fails :
    (∀ (T : Type) [LinearOrderedField T],
       (numCastFrom T 2).isSome = true ∧ numCastFrom T 2 = some (val2 T))
    ∧ (numCastFrom ℚ 2).isSome = true ∧ (numCastFrom ℝ 2).isSome = true
    ∧ numCastFrom ℚ 2 = some (val2 ℚ) ∧ numCastFrom ℝ 2 = some (val2 ℝ) := by
  refine ⟨fun T _ => ⟨rfl, rfl⟩, rfl, rfl, rfl, rfl⟩

/-- C7: the box query returns `[]` for a subtree whose node volume does
not intersect the query; otherwise it returns the node's matching items
first, then the children's results in fixed construction order; and no
stored entry appears twice (the result is a sub-permutation of the stored
items).  Both quadtree and octree. -/
theorem C7_box_query_prune_order_nodup :
    (∀ (T : Type) [LinearOrderedField T] (P : Type) (idx : P → T × T)
       (t : quadtree.Quadtree T P) (q : quadtree.Volume T),
       quadtree.Volume.intersects t.volume q = false →
         quadtree.Quadtree.get_in_volume idx t q = [])
    ∧ (∀ (T : Type) [LinearOrderedField T] (P : Type) (idx : P → T × T)
       (cap : ℕ) (is : List P) (vol : quadtree.Volume T)
       (q0 q1 q2 q3 : quadtree.Quadtree T P) (q : quadtree.Volume T),
       quadtree.Volume.intersects vol q = true →
         quadtree.Quadtree.get_in_volume idx
             (quadtree.Quadtree.internal cap is vol q0 q1 q2 q3) q
           = is.filter (fun i => quadtree.Volume.contains q (idx i))
             ++ quadtree.Quadtree.get_in_volume idx q0 q
             ++ quadtree.Quadtree.get_in_volume idx q1 q
             ++ quadtree.Quadtree.get_in_volume idx q2 q
             ++ quadtree.Quadtree.get_in_volume idx q3 q)
    ∧ (∀ (T : Type) [LinearOrderedField T] (P : Type) (idx : P → T × T)
       (t : quadtree.Quadtree T P) (q : quadtree.Volume T),
       List.Subperm (quadtree.Quadtree.get_in_volume idx t q) t.allItems)
    ∧ (∀ (T : Type) [LinearOrderedField T] (P : Type) (idx : P → T × T × T)
       (t : octree.Octree T P) (q : octree.Volume T),
       octree.Volume.intersects t.volume q = false →
         octree.Octree.get_in_volume idx t q = [])
    ∧ (∀ (T : Type) [LinearOrderedField T] (P : Type) (idx : P → T × T × T)
       (cap : ℕ) (is : List P) (vol : octree.Volume T)
       (o0 o1 o2 o3 o4 o5 o6 o7 : octree.Octree T P) (q : octree.Volume T),
       octree.Volume.intersects vol q = true →
         octree.Octree.get_in_volume idx
             (octree.Octree.internal cap is vol o0 o1 o2 o3 o4 o5 o6 o7) q
           = is.filter (fun i => octree.Volume.contains q (idx i))
             ++ octree.Octree.get_in_volume idx o0 q
             ++ octree.Octree.get_in_volume idx o1 q
             ++ octree.Octree.get_in_volume idx o2 q
             ++ octree.Octree.get_in_volume idx o3 q
             ++ octree.Octree.get_in_volume idx o4 q
             ++ octree.Octree.get_in_volume idx o5 q
             ++ octree.Octree.get_in_volume idx o6 q
             ++ octree.Octree.get_in_volume idx o7 q)
    ∧ (∀ (T : Type) [LinearOrderedField T] (P : Type) (idx : P → T × T × T)
       (t : octree.Octree T P) (q : octree.Volume T),
       List.Subperm (octree.Octree.get_in_volume idx t q) t.allItems) := by
  refine ⟨?_, ?_, ?_, ?_, ?_, ?_⟩
  · intro T _ P idx t q h
    cases t <;>
      (simp only [quadtree.Quadtree.volume] at h
       simp [quadtree.Quadtree.get_in_volume, h])
  · intro T _ P idx cap is vol q0 q1 q2 q3 q h
    simp [quadtree.Quadtree.get_in_volume, h]
  · intro T _ P idx t q
    exact quadtree.q_giv_subperm idx t q
  · intro T _ P idx t q h
    cases t <;>
      (simp only [octree.Octree.volume] at h
       simp [octree.Octree.get_in_volume, h])
  · intro T _ P idx cap is vol o0 o1 o2 o3 o4 o5 o6 o7 q h
    simp [octree.Octree.get_in_volume, h]
  · intro T _ P idx t q
    exact octree.o_giv_subperm idx t q

/-- Witness for C7: the prune branch and the ordered decomposition,
applied at concrete rational trees. -/
theorem C7_box_query_prune_order_nodup_witness :
    (quadtree.Volume.intersects
        (quadtree.Quadtree.leaf 8 [((0:ℚ), 0)]
          (quadtree.Volume.new ((0:ℚ), 0) (1, 1))).volume
        (quadtree.Volume.new ((5:ℚ), 5) (6, 6)) = false
      ∧ quadtree.Quadtree.get_in_volume id
          (quadtree.Quadtree.leaf 8 [((0:ℚ), 0)]
            (quadtree.Volume.new ((0:ℚ), 0) (1, 1)))
          (quadtree.Volume.new ((5:ℚ), 5) (6, 6)) = [])
    ∧ (quadtree.Volume.intersects (quadtree.Volume.new ((0:ℚ), 0) (10, 10))
        (quadtree.Volume.new ((0:ℚ), 0) (10, 10)) = true
      ∧ quadtree.Quadtree.get_in_volume id
          (quadtree.Quadtree.internal 8 [((0:ℚ), 0)]
            (quadtree.Volume.new ((0:ℚ), 0) (10, 10))
            (quadtree.Quadtree.leaf 8 [(1, 1)] (quadtree.Volume.new ((0:ℚ), 0) (5, 5)))
            (quadtree.Quadtree.leaf 8 [] (quadtree.Volume.new ((5:ℚ), 0) (10, 5)))
            (quadtree.Quadtree.leaf 8 [] (quadtree.Volume.new ((0:ℚ), 5) (5, 10)))
            (quadtree.Quadtree.leaf 8 [] (quadtree.Volume.new ((5:ℚ), 5) (10, 10))))
          (quadtree.Volume.new ((0:ℚ), 0) (10, 10))
        = [((0:ℚ), 0)].filter
            (fun i => quadtree.Volume.contains
              (quadtree.Volume.new ((0:ℚ), 0) (10, 10)) (id i))
          ++ quadtree.Quadtree.get_in_volume id
              (quadtree.Quadtree.leaf 8 [(1, 1)] (quadtree.Volume.new ((0:ℚ), 0) (5, 5)))
              (quadtree.Volume.new ((0:ℚ), 0) (10, 10))
          ++ quadtree.Quadtree.get_in_volume id
              (quadtree.Quadtree.leaf 8 [] (quadtree.Volume.new ((5:ℚ), 0) (10, 5)))
              (quadtree.Volume.new ((0:ℚ), 0) (10, 10))
          ++ quadtree.Quadtree.get_in_volume id
              (quadtree.Quadtree.leaf 8 [] (quadtree.Volume.new ((0:ℚ), 5) (5, 10)))
              (quadtree.Volume.new ((0:ℚ), 0) (10, 10))
          ++ quadtree.Quadtree.get_in_volume id
              (quadtree.Quadtree.leaf 8 [] (quadtree.Volume.new ((5:ℚ), 5) (10, 10)))
              (quadtree.Volume.new ((0:ℚ), 0) (10, 10)))
    ∧ (octree.Volume.intersects
        (octree.Octree.leaf 8 [((0:ℚ), 0, 0)]
          (octree.Volume.new ((0:ℚ), 0, 0) (1, 1, 1))).volume
        (octree.Volume.new ((5:ℚ), 5, 5) (6, 6, 6)) = false
      ∧ octree.Octree.get_in_volume id
          (octree.Octree.leaf 8 [((0:ℚ), 0, 0)]
            (octree.Volume.new ((0:ℚ), 0, 0) (1, 1, 1)))
          (octree.Volume.new ((5:ℚ), 5, 5) (6, 6, 6)) = []) := by
  refine ⟨⟨by decide, ?_⟩, ⟨by decide, ?_⟩, by decide, ?_⟩
  · exact C7_box_query_prune_order_nodup.1 ℚ (ℚ × ℚ) id _ _ (by decide)
  · exact C7_box_query_prune_order_nodup.2.1 ℚ (ℚ × ℚ) id 8 _ _ _ _ _ _ _ (by decide)
  · exact C7_box_query_prune_order_nodup.2.2.2.1 ℚ (ℚ × ℚ × ℚ) id _ _ (by decide)

/-- C4: the claim states the radius filter is inclusive
(`distance <= radius`) uniformly in 2D and 3D.  The quadtree code indeed
uses `<=`, but the octree code uses strict `<` (line 141): an octree item
at distance exactly `radius` (here `(3,4,0)` at distance 5 from the
origin) is excluded, while the corresponding quadtree item `(3,4)` is
included.  The spec (§9) flags this inconsistency and fixes `<=` as
canonical, so the code's octree branch is the defect. -/
theorem C4_octree_radius_filter_is_strict :
    octree.Octree.get_in_radius id Real.sqrt Real.rpow
      (octree.Octree.leaf 8 [((3:ℝ), 4, 0)]
        (octree.Volume.new (-10, -10, -10) (10, 10, 10))) (0, 0, 0) 5 = []
    ∧ quadtree.Quadtree.get_in_radius id Real.sqrt Real.rpow
      (quadtree.Quadtree.leaf 8 [((3:ℝ), 4)]
        (quadtree.Volume.new (-10, -10) (10, 10))) (0, 0) 5 = [(3, 4)]
    ∧ Real.sqrt (Real.rpow ((3:ℝ) - 0) (val2 ℝ) + Real.rpow ((4:ℝ) - 0) (val2 ℝ)
        + Real.rpow ((0:ℝ) - 0) (val2 ℝ)) = 5 := by
  refine ⟨?_, ?_, ?_⟩
  · have hint : (octree.Volume.new ((-10:ℝ), -10, -10) (10, 10, 10)).intersects
        (octree.Volume.new (0 - 5, 0 - 5, 0 - 5) (0 + 5, 0 + 5, 0 + 5)) = true := by
      simp only [octree.Volume.intersects, octree.Volume.new, decide_eq_true_eq]
      norm_num
    have hcont : (octree.Volume.new ((0:ℝ) - 5, 0 - 5, 0 - 5)
        (0 + 5, 0 + 5, 0 + 5)).contains ((3:ℝ), 4, 0) = true := by
      simp only [octree.Volume.contains, octree.Volume.new, decide_eq_true_eq]
      norm_num
    have hb : decide (Real.sqrt (((3:ℝ) - 0).rpow (val2 ℝ)
        + ((4:ℝ) - 0).rpow (val2 ℝ) + ((0:ℝ) - 0).rpow (val2 ℝ)) < 5) = false := by
      rw [decide_eq_false_iff_not]
      simp only [rpow_val2]
      norm_num [sqrt_twentyfive]
    simp only [octree.Octree.get_in_radius, octree.Octree.get_in_volume,
      List.filter, id_eq, hint, if_true, hcont, hb]
  · have hint : (quadtree.Volume.new ((-10:ℝ), -10) (10, 10)).intersects
        (quadtree.Volume.new (0 - 5, 0 - 5) (0 + 5, 0 + 5)) = true := by
      simp only [quadtree.Volume.intersects, quadtree.Volume.new, decide_eq_true_eq]
      norm_num
    have hcont : (quadtree.Volume.new ((0:ℝ) - 5, 0 - 5) (0 + 5, 0 + 5)).contains
        ((3:ℝ), 4) = true := by
      simp only [quadtree.Volume.contains, quadtree.Volume.new, decide_eq_true_eq]
      norm_num
    have hb : decide (Real.sqrt (((3:ℝ) - 0).rpow (val2 ℝ)
        + ((4:ℝ) - 0).rpow (val2 ℝ)) ≤ 5) = true := by
      rw [decide_eq_true_eq]
      simp only [rpow_val2]
      norm_num [sqrt_twentyfive]
    simp only [quadtree.Quadtree.get_in_radius, quadtree.Quadtree.get_in_volume,
      List.filter, id_eq, hint, if_true, hcont, hb]
  · simp only [rpow_val2]
    norm_num [sqrt_twentyfive]

/-- C6: every element of `get_in_radius(center, r)` also occurs in
`get_in_volume` of the axis-aligned box `[center - r, center + r]`
(the radius query literally filters that box query's result), and it
satisfies the code's distance bound: `<= r` in the quadtree, and `< r`
hence also `<= r` in the octree. -/
theorem C6_radius_subset_of_box_and_distance_le :
    (∀ (P : Type) (idx : P → ℝ × ℝ) (t : quadtree.Quadtree ℝ P)
       (c : ℝ × ℝ) (r : ℝ) (p : P),
       p ∈ quadtree.Quadtree.get_in_radius idx Real.sqrt Real.rpow t c r →
         p ∈ quadtree.Quadtree.get_in_volume idx t
             (quadtree.Volume.new (c.1 - r, c.2 - r) (c.1 + r, c.2 + r))
         ∧ Real.sqrt (Real.rpow ((idx p).1 - c.1) (val2 ℝ)
             + Real.rpow ((idx p).2 - c.2) (val2 ℝ)) ≤ r)
    ∧ (∀ (P : Type) (idx : P → ℝ × ℝ × ℝ) (t : octree.Octree ℝ P)
       (c : ℝ × ℝ × ℝ) (r : ℝ) (p : P),
       p ∈ octree.Octree.get_in_radius idx Real.sqrt Real.rpow t c r →
         p ∈ octree.Octree.get_in_volume idx t
             (octree.Volume.new (c.1 - r, c.2.1 - r, c.2.2 - r)
               (c.1 + r, c.2.1 + r, c.2.2 + r))
         ∧ Real.sqrt (Real.rpow ((idx p).1 - c.1) (val2 ℝ)
             + Real.rpow ((idx p).2.1 - c.2.1) (val2 ℝ)
             + Real.rpow ((idx p).2.2 - c.2.2) (val2 ℝ)) ≤ r) := by
  constructor
  · intro P idx t c r p hp
    simp only [quadtree.Quadtree.get_in_radius] at hp
    have h := List.mem_filter.mp hp
    refine ⟨h.1, ?_⟩
    simpa only [decide_eq_true_eq] using h.2
  · intro P idx t c r p hp
    simp only [octree.Octree.get_in_radius] at hp
    have h := List.mem_filter.mp hp
    refine ⟨h.1, ?_⟩
    have h2 : Real.sqrt (Real.rpow ((idx p).1 - c.1) (val2 ℝ)
        + Real.rpow ((idx p).2.1 - c.2.1) (val2 ℝ)
        + Real.rpow ((idx p).2.2 - c.2.2) (val2 ℝ)) < r := by
      simpa only [decide_eq_true_eq] using h.2
    exact le_of_lt h2

/-- Witness for C6: concrete instances — the quadtree item `(3,4)` inside
the radius-5 query at the origin, and the octree item `(3,0,0)`. -/
theorem C6_radius_subset_of_box_and_distance_le_witness :
    (((3:ℝ), 4) ∈ quadtree.Quadtree.get_in_radius id Real.sqrt Real.rpow
        (quadtree.Quadtree.leaf 8 [((3:ℝ), 4)]
          (quadtree.Volume.new (-10, -10) (10, 10))) (0, 0) 5
      ∧ ((3:ℝ), 4) ∈ quadtree.Quadtree.get_in_volume id
          (quadtree.Quadtree.leaf 8 [((3:ℝ), 4)]
            (quadtree.Volume.new (-10, -10) (10, 10)))
          (quadtree.Volume.new ((0:ℝ) - 5, 0 - 5) (0 + 5, 0 + 5))
      ∧ Real.sqrt (Real.rpow ((3:ℝ) - 0) (val2 ℝ)
          + Real.rpow ((4:ℝ) - 0) (val2 ℝ)) ≤ 5)
    ∧ (((3:ℝ), 0, 0) ∈ octree.Octree.get_in_radius id Real.sqrt Real.rpow
        (octree.Octree.leaf 8 [((3:ℝ), 0, 0)]
          (octree.Volume.new (-10, -10, -10) (10, 10, 10))) (0, 0, 0) 5
      ∧ ((3:ℝ), 0, 0) ∈ octree.Octree.get_in_volume id
          (octree.Octree.leaf 8 [((3:ℝ), 0, 0)]
            (octree.Volume.new (-10, -10, -10) (10, 10, 10)))
          (octree.Volume.new ((0:ℝ) - 5, 0 - 5, 0 - 5) (0 + 5, 0 + 5, 0 + 5))
      ∧ Real.sqrt (Real.rpow ((3:ℝ) - 0) (val2 ℝ)
          + Real.rpow ((0:ℝ) - 0) (val2 ℝ)
          + Real.rpow ((0:ℝ) - 0) (val2 ℝ)) ≤ 5) := by
  have hq : ((3:ℝ), 4) ∈ quadtree.Quadtree.get_in_radius id Real.sqrt Real.rpow
      (quadtree.Quadtree.leaf 8 [((3:ℝ), 4)]
        (quadtree.Volume.new (-10, -10) (10, 10))) (0, 0) 5 := by
    have hint : (quadtree.Volume.new ((-10:ℝ), -10) (10, 10)).intersects
        (quadtree.Volume.new (0 - 5, 0 - 5) (0 + 5, 0 + 5)) = true := by
      simp only [quadtree.Volume.intersects, quadtree.Volume.new, decide_eq_true_eq]
      norm_num
    have hcont : (quadtree.Volume.new ((0:ℝ) - 5, 0 - 5) (0 + 5, 0 + 5)).contains
        ((3:ℝ), 4) = true := by
      simp only [quadtree.Volume.contains, quadtree.Volume.new, decide_eq_true_eq]
      norm_num
    have hb : decide (Real.sqrt (((3:ℝ) - 0).rpow (val2 ℝ)
        + ((4:ℝ) - 0).rpow (val2 ℝ)) ≤ 5) = true := by
      rw [decide_eq_true_eq]
      simp only [rpow_val2]
      norm_num [sqrt_twentyfive]
    simp only [quadtree.Quadtree.get_in_radius, quadtree.Quadtree.get_in_volume,
      List.filter, id_eq, hint, if_true, hcont, hb]
    exact List.mem_singleton.mpr rfl
  have ho : ((3:ℝ), 0, 0) ∈ octree.Octree.get_in_radius id Real.sqrt Real.rpow
      (octree.Octree.leaf 8 [((3:ℝ), 0, 0)]
        (octree.Volume.new (-10, -10, -10) (10, 10, 10))) (0, 0, 0) 5 := by
    have hint : (octree.Volume.new ((-10:ℝ), -10, -10) (10, 10, 10)).intersects
        (octree.Volume.new (0 - 5, 0 - 5, 0 - 5) (0 + 5, 0 + 5, 0 + 5)) = true := by
      simp only [octree.Volume.intersects, octree.Volume.new, decide_eq_true_eq]
      norm_num
    have hcont : (octree.Volume.new ((0:ℝ) - 5, 0 - 5, 0 - 5)
        (0 + 5, 0 + 5, 0 + 5)).contains ((3:ℝ), 0, 0) = true := by
      simp only [octree.Volume.contains, octree.Volume.new, decide_eq_true_eq]
      norm_num
    have hb : decide (Real.sqrt (((3:ℝ) - 0).rpow (val2 ℝ)
        + ((0:ℝ) - 0).rpow (val2 ℝ) + ((0:ℝ) - 0).rpow (val2 ℝ)) < 5) = true := by
      rw [decide_eq_true_eq]
      simp only [rpow_val2]
      norm_num [sqrt_nine]
    simp only [octree.Octree.get_in_radius, octree.Octree.get_in_volume,
      List.filter, id_eq, hint, if_true, hcont, hb]
    exact List.mem_singleton.mpr rfl
  refine ⟨⟨hq, ?_, ?_⟩, ho, ?_, ?_⟩
  · exact (C6_radius_subset_of_box_and_distance_le.1 (ℝ × ℝ) id _ (0, 0) 5
      ((3:ℝ), 4) hq).1
  · exact (C6_radius_subset_of_box_and_distance_le.1 (ℝ × ℝ) id _ (0, 0) 5
      ((3:ℝ), 4) hq).2
  · exact (C6_radius_subset_of_box_and_distance_le.2 (ℝ × ℝ × ℝ) id _ (0, 0, 0) 5
      ((3:ℝ), 0, 0) ho).1
  · exact (C6_radius_subset_of_box_and_distance_le.2 (ℝ × ℝ × ℝ) id _ (0, 0, 0) 5
      ((3:ℝ), 0, 0) ho).2

end spatial
